import Mathlib

/-!
# Per-thread trace recorder of wrk2 (`src/trace.h`)

A shallow embedding of the trace recorder: the event enumeration, the 8-byte
trace record, the eleven recording functions, `open_trace_sock`,
`sync_trace_sock` and `dump_trace_sock`, followed by theorems about them.

Conventions of the embedding.

* Machine integers are `Nat`/`Int`; every store into a fixed-width field
  reduces the stored value modulo the width of the field, as the C
  conversion to an unsigned type does.
* `thread` keeps only the four members of the C `thread` that `trace.h`
  touches.  The declaration of `thread` lives in `wrk.h`; `id` is printed
  with `%d`, so it is an `int` here, and the two indices are natural numbers.
* `trace_buf` is the memory the buffer pointer designates, addressed by
  record index: `trace_buf i` is the record `&t->trace_buf[i]` is cast to.
-/

namespace Trace

/-! ## Data model -/

/-- The C `enum trace_event`, enumerators in declaration order. -/
inductive trace_event
  | TRACE_EV_REQ
  | TRACE_EV_RESP
  | TRACE_EV_CONN_START
  | TRACE_EV_CONNECTED
  | TRACE_EV_LOOP_START
  | TRACE_EV_EPOLL_WAIT
  | TRACE_EV_EPOLL_WAKE
  | TRACE_EV_DELAY_REQ_FE
  | TRACE_EV_DELAY_REQ_TE
  | TRACE_EV_EXPECT_REQ_FE
  | TRACE_EV_EXPECT_REQ_TE
  deriving DecidableEq, Repr

/-- The integer value of an enumerator: the first is `= 0`, every further one
is its predecessor plus one. -/
def trace_event.val : trace_event → Int
  | .TRACE_EV_REQ => 0
  | .TRACE_EV_RESP => 0 + 1
  | .TRACE_EV_CONN_START => 0 + 1 + 1
  | .TRACE_EV_CONNECTED => 0 + 1 + 1 + 1
  | .TRACE_EV_LOOP_START => 0 + 1 + 1 + 1 + 1
  | .TRACE_EV_EPOLL_WAIT => 0 + 1 + 1 + 1 + 1 + 1
  | .TRACE_EV_EPOLL_WAKE => 0 + 1 + 1 + 1 + 1 + 1 + 1
  | .TRACE_EV_DELAY_REQ_FE => 0 + 1 + 1 + 1 + 1 + 1 + 1 + 1
  | .TRACE_EV_DELAY_REQ_TE => 0 + 1 + 1 + 1 + 1 + 1 + 1 + 1 + 1
  | .TRACE_EV_EXPECT_REQ_FE => 0 + 1 + 1 + 1 + 1 + 1 + 1 + 1 + 1 + 1
  | .TRACE_EV_EXPECT_REQ_TE => 0 + 1 + 1 + 1 + 1 + 1 + 1 + 1 + 1 + 1 + 1

/-- Conversion of a C `int` to `uint8_t`. -/
def to_u8 (x : Int) : Nat := (x % 256).toNat

/-- Conversion of a C `int` to `uint16_t`. -/
def to_u16 (x : Int) : Nat := (x % 65536).toNat

/-- Conversion of a `uint64_t` to `uint32_t`. -/
def to_u32 (x : Nat) : Nat := x % 4294967296

/-- The C `struct trace_record`: `uint8_t tid; uint8_t event; uint16_t cid;
uint32_t us;`. -/
structure trace_record where
  tid : Nat
  event : Nat
  cid : Nat
  us : Nat
  deriving DecidableEq, Repr

/-- The members of the C `thread` used by the recorder. -/
structure thread where
  id : Int
  trace_idx : Nat
  trace_max_idx : Nat
  trace_buf : Nat → trace_record

/-- Every field of a record holds a value of its C type. -/
def trace_record.wf (r : trace_record) : Prop :=
  r.tid < 256 ∧ r.event < 256 ∧ r.cid < 65536 ∧ r.us < 4294967296

instance (r : trace_record) : Decidable r.wf := by
  unfold trace_record.wf; infer_instance

/-! ## The recording functions -/

/-- Source: `trace_sock_write`, lines 30-39. -/
def trace_sock_write (t : thread) (cid : Int) (us : Nat) : thread :=
  if t.trace_idx < t.trace_max_idx then
    { t with
      trace_idx := t.trace_idx + 1
      trace_buf := Function.update t.trace_buf t.trace_idx
        { t.trace_buf t.trace_idx with
          tid := to_u8 t.id
          event := to_u8 trace_event.TRACE_EV_REQ.val
          cid := to_u16 cid
          us := to_u32 us } }
  else t

/-- Source: `trace_sock_resp`, lines 41-50. -/
def trace_sock_resp (t : thread) (cid : Int) (us : Nat) : thread :=
  if t.trace_idx < t.trace_max_idx then
    { t with
      trace_idx := t.trace_idx + 1
      trace_buf := Function.update t.trace_buf t.trace_idx
        { t.trace_buf t.trace_idx with
          tid := to_u8 t.id
          event := to_u8 trace_event.TRACE_EV_RESP.val
          cid := to_u16 cid
          us := to_u32 us } }
  else t

/-- Source: `trace_sock_conn_start`, lines 52-61. -/
def trace_sock_conn_start (t : thread) (cid : Int) (us : Nat) : thread :=
  if t.trace_idx < t.trace_max_idx then
    { t with
      trace_idx := t.trace_idx + 1
      trace_buf := Function.update t.trace_buf t.trace_idx
        { t.trace_buf t.trace_idx with
          tid := to_u8 t.id
          event := to_u8 trace_event.TRACE_EV_CONN_START.val
          cid := to_u16 cid
          us := to_u32 us } }
  else t

/-- Source: `trace_sock_connected`, lines 63-72. -/
def trace_sock_connected (t : thread) (cid : Int) (us : Nat) : thread :=
  if t.trace_idx < t.trace_max_idx then
    { t with
      trace_idx := t.trace_idx + 1
      trace_buf := Function.update t.trace_buf t.trace_idx
        { t.trace_buf t.trace_idx with
          tid := to_u8 t.id
          event := to_u8 trace_event.TRACE_EV_CONNECTED.val
          cid := to_u16 cid
          us := to_u32 us } }
  else t

/-- Source: `trace_loop_start`, lines 74-83; the correlation id is the
constant 0. -/
def trace_loop_start (t : thread) (us : Nat) : thread :=
  if t.trace_idx < t.trace_max_idx then
    { t with
      trace_idx := t.trace_idx + 1
      trace_buf := Function.update t.trace_buf t.trace_idx
        { t.trace_buf t.trace_idx with
          tid := to_u8 t.id
          event := to_u8 trace_event.TRACE_EV_LOOP_START.val
          cid := to_u16 0
          us := to_u32 us } }
  else t

/-- Source: `trace_epoll_wait`, lines 85-94; the correlation id is the poll
timeout. -/
def trace_epoll_wait (t : thread) (timeout : Int) (us : Nat) : thread :=
  if t.trace_idx < t.trace_max_idx then
    { t with
      trace_idx := t.trace_idx + 1
      trace_buf := Function.update t.trace_buf t.trace_idx
        { t.trace_buf t.trace_idx with
          tid := to_u8 t.id
          event := to_u8 trace_event.TRACE_EV_EPOLL_WAIT.val
          cid := to_u16 timeout
          us := to_u32 us } }
  else t

/-- Source: `trace_epoll_wake`, lines 96-105; the correlation id is the poll
return value. -/
def trace_epoll_wake (t : thread) (ep_ret : Int) (us : Nat) : thread :=
  if t.trace_idx < t.trace_max_idx then
    { t with
      trace_idx := t.trace_idx + 1
      trace_buf := Function.update t.trace_buf t.trace_idx
        { t.trace_buf t.trace_idx with
          tid := to_u8 t.id
          event := to_u8 trace_event.TRACE_EV_EPOLL_WAKE.val
          cid := to_u16 ep_ret
          us := to_u32 us } }
  else t

/-- Source: `trace_sock_delay_req_fe`, lines 107-116. -/
def trace_sock_delay_req_fe (t : thread) (cid : Int) (us : Nat) : thread :=
  if t.trace_idx < t.trace_max_idx then
    { t with
      trace_idx := t.trace_idx + 1
      trace_buf := Function.update t.trace_buf t.trace_idx
        { t.trace_buf t.trace_idx with
          tid := to_u8 t.id
          event := to_u8 trace_event.TRACE_EV_DELAY_REQ_FE.val
          cid := to_u16 cid
          us := to_u32 us } }
  else t

/-- Source: `trace_sock_delay_req_te`, lines 118-127. -/
def trace_sock_delay_req_te (t : thread) (cid : Int) (us : Nat) : thread :=
  if t.trace_idx < t.trace_max_idx then
    { t with
      trace_idx := t.trace_idx + 1
      trace_buf := Function.update t.trace_buf t.trace_idx
        { t.trace_buf t.trace_idx with
          tid := to_u8 t.id
          event := to_u8 trace_event.TRACE_EV_DELAY_REQ_TE.val
          cid := to_u16 cid
          us := to_u32 us } }
  else t

/-- Source: `trace_sock_expect_req_fe`, lines 129-138. -/
def trace_sock_expect_req_fe (t : thread) (cid : Int) (us : Nat) : thread :=
  if t.trace_idx < t.trace_max_idx then
    { t with
      trace_idx := t.trace_idx + 1
      trace_buf := Function.update t.trace_buf t.trace_idx
        { t.trace_buf t.trace_idx with
          tid := to_u8 t.id
          event := to_u8 trace_event.TRACE_EV_EXPECT_REQ_FE.val
          cid := to_u16 cid
          us := to_u32 us } }
  else t

/-- Source: `trace_sock_expect_req_te`, lines 140-149. -/
def trace_sock_expect_req_te (t : thread) (cid : Int) (us : Nat) : thread :=
  if t.trace_idx < t.trace_max_idx then
    { t with
      trace_idx := t.trace_idx + 1
      trace_buf := Function.update t.trace_buf t.trace_idx
        { t.trace_buf t.trace_idx with
          tid := to_u8 t.id
          event := to_u8 trace_event.TRACE_EV_EXPECT_REQ_TE.val
          cid := to_u16 cid
          us := to_u32 us } }
  else t

/-- The eleven recording functions, by name. -/
inductive recorder
  | sock_write
  | sock_resp
  | sock_conn_start
  | sock_connected
  | loop_start
  | epoll_wait
  | epoll_wake
  | sock_delay_req_fe
  | sock_delay_req_te
  | sock_expect_req_fe
  | sock_expect_req_te
  deriving DecidableEq, Repr

/-- Calling the named recording function.  `trace_loop_start` has no
correlation parameter, so `arg` is not passed to it. -/
def recorder.run (f : recorder) (t : thread) (arg : Int) (us : Nat) : thread :=
  match f with
  | .sock_write => trace_sock_write t arg us
  | .sock_resp => trace_sock_resp t arg us
  | .sock_conn_start => trace_sock_conn_start t arg us
  | .sock_connected => trace_sock_connected t arg us
  | .loop_start => trace_loop_start t us
  | .epoll_wait => trace_epoll_wait t arg us
  | .epoll_wake => trace_epoll_wake t arg us
  | .sock_delay_req_fe => trace_sock_delay_req_fe t arg us
  | .sock_delay_req_te => trace_sock_delay_req_te t arg us
  | .sock_expect_req_fe => trace_sock_expect_req_fe t arg us
  | .sock_expect_req_te => trace_sock_expect_req_te t arg us

/-- One call of a recording function with its arguments. -/
structure call where
  f : recorder
  arg : Int
  us : Nat

/-- A sequence of calls, executed from left to right. -/
def run_calls (t : thread) (cs : List call) : thread :=
  cs.foldl (fun s c => c.f.run s c.arg c.us) t

/-! ## What the specification expects of a call -/

/-- The event kind each recording function is named after, in the order of the
specification: request sent, response received, connection start, connected,
loop start, poll wait, poll wake, delay request front/tail end, expect request
front/tail end. -/
def recorder.kind : recorder → trace_event
  | .sock_write => .TRACE_EV_REQ
  | .sock_resp => .TRACE_EV_RESP
  | .sock_conn_start => .TRACE_EV_CONN_START
  | .sock_connected => .TRACE_EV_CONNECTED
  | .loop_start => .TRACE_EV_LOOP_START
  | .epoll_wait => .TRACE_EV_EPOLL_WAIT
  | .epoll_wake => .TRACE_EV_EPOLL_WAKE
  | .sock_delay_req_fe => .TRACE_EV_DELAY_REQ_FE
  | .sock_delay_req_te => .TRACE_EV_DELAY_REQ_TE
  | .sock_expect_req_fe => .TRACE_EV_EXPECT_REQ_FE
  | .sock_expect_req_te => .TRACE_EV_EXPECT_REQ_TE

/-- The ordinal of a recording function: its position 0..10 in the list of
the eleven functions. -/
def recorder.ordinal : recorder → Nat
  | .sock_write => 0
  | .sock_resp => 1
  | .sock_conn_start => 2
  | .sock_connected => 3
  | .loop_start => 4
  | .epoll_wait => 5
  | .epoll_wake => 6
  | .sock_delay_req_fe => 7
  | .sock_delay_req_te => 8
  | .sock_expect_req_fe => 9
  | .sock_expect_req_te => 10

/-- The correlation id the specification gives a call: the argument, or 0 for
the loop-start event, which takes none. -/
def recorder.corr (f : recorder) (arg : Int) : Int :=
  if f = .loop_start then 0 else arg

/-- The record the specification expects a call to append for a thread with
identifier `id`: the fields as stored in their fixed widths. -/
def call.record (id : Int) (c : call) : trace_record :=
  { tid := to_u8 id
    event := c.f.ordinal
    cid := to_u16 (c.f.corr c.arg)
    us := to_u32 c.us }

/-- The common shape of the eleven functions (used in proofs only). -/
def store_record (t : thread) (ev : trace_event) (cid : Int) (us : Nat) : thread :=
  if t.trace_idx < t.trace_max_idx then
    { t with
      trace_idx := t.trace_idx + 1
      trace_buf := Function.update t.trace_buf t.trace_idx
        ⟨to_u8 t.id, to_u8 ev.val, to_u16 cid, to_u32 us⟩ }
  else t

/-! ## Opening the buffer -/

/-- The all-zero record. -/
def zero_record : trace_record := ⟨0, 0, 0, 0⟩

/-- Modelled from the spec: `zcalloc` is defined outside `trace.h`; the spec
treats it as an allocator that returns zeroed memory.  `ok` tells whether the
allocation of `size` bytes succeeds; a failed allocation is the null pointer. -/
def zcalloc (ok : Bool) (_size : Nat) : Option (Nat → trace_record) :=
  if ok then some (fun _ => zero_record) else none

/-- Modelled from the spec: `sizeof(*t->trace_buf)`.  The element type of
`trace_buf` is declared in `wrk.h`; the spec divides the byte budget by the
record size, which is 8 bytes (1 + 1 + 2 + 4). -/
def sizeof_trace_buf_elem : Nat := 8

/-- The `static const uint64_t bufsize = 4096U * 4096U` of `open_trace_sock`:
a product of two `unsigned int`. -/
def bufsize : Nat := (4096 * 4096) % 4294967296

/-- Source: `open_trace_sock`, lines 151-159.  The result is `none` when the
assertion on the allocated pointer fails. -/
def open_trace_sock (t : thread) (ok : Bool) : Option thread :=
  let t1 := { t with trace_idx := 0 }
  let t2 := { t1 with trace_max_idx := bufsize / sizeof_trace_buf_elem }
  match zcalloc ok bufsize with
  | some m => some { t2 with trace_buf := m }
  | none => none

/-! ## Normalising the timestamps -/

/-- Subtraction of two `uint32_t`: the difference modulo `2^32`. -/
def u32_sub (a b : Nat) : Nat :=
  (a + (4294967296 - b % 4294967296)) % 4294967296

/-- The body of the loop of `sync_trace_sock` at index `i`:
`rec->us -= start_us`. -/
def sync_step (start_us : Nat) (t : thread) (i : Nat) : thread :=
  { t with
    trace_buf := Function.update t.trace_buf i
      { t.trace_buf i with us := u32_sub (t.trace_buf i).us start_us } }

/-- Source: `sync_trace_sock`, lines 161-170: the loop runs `i` over
`0, 1, ..., trace_idx - 1`. -/
def sync_trace_sock (t : thread) (start_us : Nat) : thread :=
  (List.range t.trace_idx).foldl (sync_step start_us) t

/-! ## Dumping the buffer -/

/-- Little-endian bytes of an unsigned value of `w` bytes. -/
def le_bytes : Nat → Nat → List Nat
  | 0, _ => []
  | w + 1, x => x % 256 :: le_bytes w (x / 256)

/-- The eight bytes of a `struct trace_record` in memory. -/
def record_bytes (r : trace_record) : List Nat :=
  le_bytes 1 r.tid ++ le_bytes 1 r.event ++ le_bytes 2 r.cid ++ le_bytes 4 r.us

/-- The bytes of `struct trace_head head = { 2, t->trace_idx }`: an `int`
version and the `uint32_t nr_rec`. -/
def head_bytes (t : thread) : List Nat :=
  le_bytes 4 2 ++ le_bytes 4 (to_u32 t.trace_idx)

/-- The first `t->trace_idx * sizeof(*t->trace_buf)` bytes of the buffer: the
records at the indices below `trace_idx`, in index order. -/
def buf_bytes (t : thread) : List Nat :=
  ((List.range t.trace_idx).map (fun i => record_bytes (t.trace_buf i))).flatten

/-- Flags of `open(2)` and the error number `EEXIST`, with their Linux values. -/
def O_RDWR : Nat := 2

def O_CREAT : Nat := 64

def O_EXCL : Nat := 128

def O_TRUNC : Nat := 512

def O_APPEND : Nat := 1024

def EEXIST : Nat := 17

/-- Rendering of an `int` by `%d`. -/
def fmt_d : Int → List Char
  | Int.ofNat n => Nat.toDigits 10 n
  | Int.negSucc n => '-' :: Nat.toDigits 10 (n + 1)

/-- The `snprintf(trace_path, sizeof trace_path, "wrk-thread%d.trace", t->id)`
into a buffer of 128 bytes: at most 127 characters are kept. -/
def trace_path (id : Int) : List Char :=
  ("wrk-thread".toList ++ fmt_d id ++ ".trace".toList).take 127

/-- What `dump_trace_sock` does to the outside world. -/
inductive io_event
  | open_call (path : List Char) (flags : Nat) (mode : Nat)
  | report (path : List Char) (errno : Nat)
  | write_call (fd : Nat) (bytes : List Nat)
  | close_call (fd : Nat)
  deriving DecidableEq, Repr

/-- The answer of `open(2)` to the attempt with the given number, path, flags
and mode: a descriptor, or an error number. -/
abbrev open_oracle := Nat → List Char → Nat → Nat → Except Nat Nat

/-- The `again:` loop of `dump_trace_sock`, lines 178-187, from attempt
number `n` with the given flags; `none` when `fuel` attempts were not enough. -/
def dump_again (open_ : open_oracle) (path : List Char) :
    Nat → Nat → Nat → Option (List io_event × Option Nat)
  | 0, _, _ => none
  | fuel + 1, n, flags =>
    match open_ n path flags 438 with
    | .ok fd => some ([io_event.open_call path flags 438], some fd)
    | .error errno =>
      if errno = EEXIST then
        match dump_again open_ path fuel (n + 1) O_RDWR with
        | some (log, r) => some (io_event.open_call path flags 438 :: log, r)
        | none => none
      else
        some ([io_event.open_call path flags 438, io_event.report path errno], none)

/-- Source: `dump_trace_sock`, lines 172-198.  The result is the sequence of
system calls made; `none` when `fuel` open attempts were not enough. -/
def dump_trace_sock (t : thread) (open_ : open_oracle) (fuel : Nat) :
    Option (List io_event) :=
  match dump_again open_ (trace_path t.id) fuel 0 (O_RDWR ||| O_CREAT ||| O_EXCL) with
  | none => none
  | some (log, none) => some log
  | some (log, some fd) =>
    some (log ++ [io_event.write_call fd (head_bytes t),
                  io_event.write_call fd (buf_bytes t),
                  io_event.close_call fd])

/-- The bytes written by the `write` calls of a run, in order. -/
def written : List io_event → List Nat
  | [] => []
  | io_event.write_call _ bytes :: es => bytes ++ written es
  | _ :: es => written es

/-! ## Reading a dump back (the external reader of the specification) -/

/-- Value of a little-endian byte string. -/
def le_val : List Nat → Nat
  | [] => 0
  | b :: bs => b + 256 * le_val bs

/-- Reading of a 32-bit pattern as an `int32`. -/
def to_i32 (x : Nat) : Int :=
  if x < 2147483648 then (x : Int) else (x : Int) - 4294967296

/-- Decoding of one 8-byte record `{tid:u8, event:u8, cid:u16, us:u32}`. -/
def decode_record (bs : List Nat) : Option trace_record :=
  if bs.length = 8 then
    some ⟨le_val (bs.take 1), le_val ((bs.drop 1).take 1),
          le_val ((bs.drop 2).take 2), le_val ((bs.drop 4).take 4)⟩
  else none

/-- Decoding of `n` consecutive records. -/
def decode_records : Nat → List Nat → Option (List trace_record)
  | 0, _ => some []
  | n + 1, bs =>
    match decode_record (bs.take 8), decode_records n (bs.drop 8) with
    | some r, some rs => some (r :: rs)
    | _, _ => none

/-- A decoded dump file. -/
structure trace_file where
  version : Int
  nr_rec : Nat
  records : List trace_record
  deriving DecidableEq, Repr

/-- Decoding of a dump: an `int32` version, a `uint32` record count, then that
many records. -/
def decode_file (bs : List Nat) : Option trace_file :=
  if 8 ≤ bs.length then
    match decode_records (le_val ((bs.drop 4).take 4)) (bs.drop 8) with
    | some rs => some ⟨to_i32 (le_val (bs.take 4)), le_val ((bs.drop 4).take 4), rs⟩
    | none => none
  else none

/-- The records of a thread at the indices below `trace_idx`, in index order. -/
def recorded (t : thread) : List trace_record :=
  (List.range t.trace_idx).map t.trace_buf

/-! ## Reachable states -/

/-- The invariant of the trace state: `0 <= trace_idx <= trace_max_idx`. -/
def trace_inv (t : thread) : Prop :=
  0 ≤ t.trace_idx ∧ t.trace_idx ≤ t.trace_max_idx

/-- One operation on an opened buffer: a recording call or a normalisation. -/
inductive op
  | record (c : call)
  | sync (start_us : Nat)

/-- Effect of one operation. -/
def op.run (o : op) (t : thread) : thread :=
  match o with
  | .record c => c.f.run t c.arg c.us
  | .sync s => sync_trace_sock t s

/-- The states reached from `open_trace_sock` by recording calls and
normalisations. -/
inductive reachable : thread → Prop
  | opened (t0 t : thread) (ok : Bool) (h : open_trace_sock t0 ok = some t) : reachable t
  | step (t : thread) (o : op) (h : reachable t) : reachable (o.run t)

/-! ## The open discipline of the specification -/

/-- The flags the specification gives the open attempt number `k`: exclusive
create for the first attempt, plain read/write for every retry. -/
def attempt_flags (k : Nat) : Nat :=
  if k = 0 then O_RDWR ||| O_CREAT ||| O_EXCL else O_RDWR

/-- The `open` calls of `m + 1` attempts on `path`: the first with `flags`,
the `m` retries with plain `O_RDWR`. -/
def open_log (path : List Char) (flags : Nat) (m : Nat) : List io_event :=
  io_event.open_call path flags 438 ::
    List.replicate m (io_event.open_call path O_RDWR 438)

/-- Number of `open` calls in a run. -/
def open_attempts : List io_event → Nat
  | [] => 0
  | io_event.open_call _ _ _ :: es => open_attempts es + 1
  | _ :: es => open_attempts es

/-- An `open(2)` that fails with `EEXIST` only when asked for an exclusive
create. -/
def posix_eexist (open_ : open_oracle) : Prop :=
  ∀ n path flags mode, flags &&& O_EXCL = 0 → open_ n path flags mode ≠ .error EEXIST

/-! ## Reading a decimal rendering back -/

/-- Value of a string of decimal digits read from the accumulator `acc` on. -/
def digits_val (acc : Nat) (cs : List Char) : Nat :=
  cs.foldl (fun v c => 10 * v + (c.toNat - 48)) acc

/-- Reading of a decimal rendering with an optional minus sign. -/
def parse_d : List Char → Int
  | [] => 0
  | c :: cs => if c = '-' then -(digits_val 0 cs : Int) else (digits_val 0 (c :: cs) : Int)

/-! ## Example states -/

/-- An empty buffer of capacity 2 owned by thread 7. -/
def ex_empty : thread := ⟨7, 0, 2, fun _ => zero_record⟩

/-- A full buffer of capacity 2 owned by thread 7. -/
def ex_full : thread := ⟨7, 2, 2, fun _ => zero_record⟩

/-- Three calls: a request, its response, a loop start. -/
def ex_calls : List call :=
  [⟨recorder.sock_write, 42, 1000⟩, ⟨recorder.sock_resp, 42, 1500⟩,
   ⟨recorder.loop_start, 9, 1600⟩]

/-- A buffer of capacity 5 holding two records; the slots from index 2 on
hold records that were never recorded. -/
def ex_two : thread := ⟨7, 2, 5, fun i => ⟨7, i, 42, 1000 + i⟩⟩

/-- An `open(2)` that succeeds at once with descriptor 3. -/
def ex_open_ok : open_oracle := fun _ _ _ _ => .ok 3

/-- The state of the scenario of the specification for thread 7: capacity 5,
a request at 1000, its response at 1500, normalised by 900. -/
def ex_scenario : thread :=
  sync_trace_sock (trace_sock_resp (trace_sock_write ⟨7, 0, 5, fun _ => zero_record⟩ 42 1000) 42 1500) 900

/-- An `open(2)` that answers `EEXIST` to every attempt. -/
def ex_open_eexist : open_oracle := fun _ _ _ _ => .error EEXIST

/-- An `open(2)` on a path that exists: `EEXIST` for an exclusive create,
descriptor 3 otherwise. -/
def ex_open_exists : open_oracle :=
  fun _ _ flags _ => if flags &&& O_EXCL = 0 then .ok 3 else .error EEXIST

/-- An `open(2)` that fails with `EACCES` (13). -/
def ex_open_denied : open_oracle := fun _ _ _ _ => .error 13

/-! ## Helper lemmas on the recording functions -/

theorem run_eq_store (f : recorder) (t : thread) (arg : Int) (us : Nat) :
    f.run t arg us = store_record t f.kind (f.corr arg) us := by
  cases f <;> rfl

theorem kind_val (f : recorder) : to_u8 f.kind.val = f.ordinal := by
  cases f <;> rfl

theorem store_record_room (t : thread) (ev : trace_event) (cid : Int) (us : Nat)
    (h : t.trace_idx < t.trace_max_idx) :
    store_record t ev cid us =
      { t with
        trace_idx := t.trace_idx + 1
        trace_buf := Function.update t.trace_buf t.trace_idx
          ⟨to_u8 t.id, to_u8 ev.val, to_u16 cid, to_u32 us⟩ } := by
  simp [store_record, h]

theorem store_record_full (t : thread) (ev : trace_event) (cid : Int) (us : Nat)
    (h : t.trace_max_idx ≤ t.trace_idx) :
    store_record t ev cid us = t := by
  simp [store_record, Nat.not_lt.mpr h]

theorem run_room (f : recorder) (t : thread) (arg : Int) (us : Nat)
    (h : t.trace_idx < t.trace_max_idx) :
    f.run t arg us =
      { t with
        trace_idx := t.trace_idx + 1
        trace_buf := Function.update t.trace_buf t.trace_idx
          (call.record t.id ⟨f, arg, us⟩) } := by
  rw [run_eq_store, store_record_room _ _ _ _ h]
  simp [call.record, kind_val]

theorem run_full (f : recorder) (t : thread) (arg : Int) (us : Nat)
    (h : t.trace_max_idx ≤ t.trace_idx) :
    f.run t arg us = t := by
  rw [run_eq_store, store_record_full _ _ _ _ h]

/-- Effect of a sequence of calls that fits the remaining room: the index
advances by the number of calls, the records below the old index stay, and the
calls fill the following slots in call order. -/
theorem run_calls_fit (cs : List call) : ∀ t : thread,
    t.trace_idx + cs.length ≤ t.trace_max_idx →
    (run_calls t cs).trace_idx = t.trace_idx + cs.length ∧
    (run_calls t cs).trace_max_idx = t.trace_max_idx ∧
    (run_calls t cs).id = t.id ∧
    (∀ j, j < t.trace_idx ∨ t.trace_idx + cs.length ≤ j →
      (run_calls t cs).trace_buf j = t.trace_buf j) ∧
    (∀ i c, cs[i]? = some c →
      (run_calls t cs).trace_buf (t.trace_idx + i) = call.record t.id c) := by
  induction cs with
  | nil =>
    intro t _
    simp [run_calls]
  | cons c cs ih =>
    intro t h
    have hlen : (c :: cs).length = cs.length + 1 := rfl
    have hroom : t.trace_idx < t.trace_max_idx := by omega
    have hstep : run_calls t (c :: cs) = run_calls (c.f.run t c.arg c.us) cs := rfl
    have hrun := run_room c.f t c.arg c.us hroom
    rw [hstep]
    generalize c.f.run t c.arg c.us = t1 at hrun
    have h1 : t1.trace_idx = t.trace_idx + 1 := by rw [hrun]
    have h2 : t1.trace_max_idx = t.trace_max_idx := by rw [hrun]
    have h3 : t1.id = t.id := by rw [hrun]
    have h4 : ∀ j, t1.trace_buf j =
        Function.update t.trace_buf t.trace_idx (call.record t.id ⟨c.f, c.arg, c.us⟩) j := by
      intro j; rw [hrun]
    obtain ⟨a1, a2, a3, a4, a5⟩ := ih t1 (by omega)
    refine ⟨by omega, by omega, by rw [a3, h3], ?_, ?_⟩
    · intro j hj
      rw [a4 j (by omega), h4 j, Function.update_noteq (by omega)]
    · intro i d hd
      cases i with
      | zero =>
        simp only [List.getElem?_cons_zero, Option.some.injEq] at hd
        subst hd
        rw [a4 _ (by omega), h4, Nat.add_zero, Function.update_same]
      | succ i =>
        simp only [List.getElem?_cons_succ] at hd
        have := a5 i d hd
        rw [h1, h3] at this
        rw [← this]
        congr 1
        omega

/-- On a full buffer every sequence of calls is the identity. -/
theorem run_calls_full (cs : List call) : ∀ t : thread,
    t.trace_max_idx ≤ t.trace_idx → run_calls t cs = t := by
  induction cs with
  | nil => intro t _; rfl
  | cons c cs ih =>
    intro t h
    have hstep : run_calls t (c :: cs) = run_calls (c.f.run t c.arg c.us) cs := rfl
    rw [hstep, run_full c.f t c.arg c.us h]
    exact ih t h

theorem run_calls_append (t : thread) (as bs : List call) :
    run_calls t (as ++ bs) = run_calls (run_calls t as) bs := by
  simp [run_calls, List.foldl_append]

theorem to_u8_small (x : Int) (h0 : 0 ≤ x) (h : x < 256) : (to_u8 x : Int) = x := by
  unfold to_u8
  rw [Int.emod_eq_of_lt h0 h]
  exact Int.toNat_of_nonneg h0

theorem to_u16_small (x : Int) (h0 : 0 ≤ x) (h : x ≤ 65535) : (to_u16 x : Int) = x := by
  unfold to_u16
  rw [Int.emod_eq_of_lt h0 (by omega)]
  exact Int.toNat_of_nonneg h0

/-- Effect of the normalisation loop run over the indices `0..n-1`. -/
theorem sync_fold (s : Nat) (t : thread) (n : Nat) :
    ((List.range n).foldl (sync_step s) t).trace_idx = t.trace_idx ∧
    ((List.range n).foldl (sync_step s) t).trace_max_idx = t.trace_max_idx ∧
    ((List.range n).foldl (sync_step s) t).id = t.id ∧
    ∀ j, ((List.range n).foldl (sync_step s) t).trace_buf j =
      if j < n then { t.trace_buf j with us := u32_sub (t.trace_buf j).us s }
      else t.trace_buf j := by
  induction n with
  | zero => simp
  | succ n ih =>
    obtain ⟨a1, a2, a3, a4⟩ := ih
    rw [List.range_succ, List.foldl_append]
    simp only [List.foldl_cons, List.foldl_nil]
    refine ⟨a1, a2, a3, ?_⟩
    intro j
    show Function.update _ n _ j = _
    by_cases hj : j = n
    · subst hj
      rw [Function.update_same, a4 j]
      simp
    · rw [Function.update_noteq hj, a4 j]
      by_cases hlt : j < n
      · simp [hlt, Nat.lt_succ_of_lt hlt]
      · have : ¬ j < n + 1 := by omega
        simp [hlt, this]

/-- Effect of `sync_trace_sock` on every member of the state. -/
theorem sync_spec (t : thread) (s : Nat) :
    (sync_trace_sock t s).trace_idx = t.trace_idx ∧
    (sync_trace_sock t s).trace_max_idx = t.trace_max_idx ∧
    (sync_trace_sock t s).id = t.id ∧
    ∀ j, (sync_trace_sock t s).trace_buf j =
      if j < t.trace_idx then { t.trace_buf j with us := u32_sub (t.trace_buf j).us s }
      else t.trace_buf j :=
  sync_fold s t t.trace_idx

/-- The 32-bit subtraction is the integer difference modulo `2^32`. -/
theorem u32_sub_int (a b : Nat) :
    (u32_sub a b : Int) = ((a : Int) - (b : Int)) % 4294967296 := by
  unfold u32_sub
  omega

theorem open_spec (t0 t : thread) (ok : Bool) (h : open_trace_sock t0 ok = some t) :
    t.id = t0.id ∧ t.trace_idx = 0 ∧ t.trace_max_idx = 2097152 ∧
    ∀ i, t.trace_buf i = zero_record := by
  cases ok with
  | false => simp [open_trace_sock, zcalloc] at h
  | true =>
    simp only [open_trace_sock, zcalloc, if_true, Option.some.injEq] at h
    subst h
    exact ⟨rfl, rfl, rfl, fun _ => rfl⟩

theorem run_inv (f : recorder) (t : thread) (arg : Int) (us : Nat)
    (h : trace_inv t) : trace_inv (f.run t arg us) := by
  by_cases hroom : t.trace_idx < t.trace_max_idx
  · rw [run_room f t arg us hroom]
    exact ⟨Nat.zero_le _, hroom⟩
  · rw [run_full f t arg us (by omega)]
    exact h

theorem sync_inv (t : thread) (s : Nat) (h : trace_inv t) :
    trace_inv (sync_trace_sock t s) := by
  obtain ⟨a1, a2, _, _⟩ := sync_spec t s
  unfold trace_inv
  rw [a1, a2]
  exact h

theorem reachable_inv (t : thread) (h : reachable t) : trace_inv t := by
  induction h with
  | opened t0 t ok h =>
    obtain ⟨_, a2, a3, _⟩ := open_spec t0 t ok h
    unfold trace_inv
    omega
  | step t o _ ih =>
    cases o with
    | record c => exact run_inv c.f t c.arg c.us ih
    | sync s => exact sync_inv t s ih

/-- Every state reached from `open_trace_sock` holds values of the C types of
its members: the capacity is 2097152, the index does not exceed it, and every
record field fits its width. -/
theorem reachable_wf (t : thread) (h : reachable t) :
    t.trace_max_idx = 2097152 ∧ t.trace_idx ≤ 2097152 ∧
    ∀ i, (t.trace_buf i).wf := by
  induction h with
  | opened t0 t ok h =>
    obtain ⟨_, a2, a3, a4⟩ := open_spec t0 t ok h
    refine ⟨a3, by omega, ?_⟩
    intro i
    rw [a4 i]
    decide
  | step t o hr ih =>
    obtain ⟨i1, i2, i3⟩ := ih
    cases o with
    | record c =>
      have e : (op.record c).run t = c.f.run t c.arg c.us := rfl
      rw [e]
      by_cases hroom : t.trace_idx < t.trace_max_idx
      · rw [run_room c.f t c.arg c.us hroom]
        refine ⟨i1, ?_, ?_⟩
        · show t.trace_idx + 1 ≤ 2097152
          omega
        intro i
        show (Function.update t.trace_buf t.trace_idx _ i).wf
        rw [Function.update_apply]
        split
        · refine ⟨?_, ?_, ?_, ?_⟩
          · simp only [call.record, to_u8]; omega
          · simp only [call.record]; cases c.f <;> decide
          · simp only [call.record, to_u16]; omega
          · simp only [call.record, to_u32]; omega
        · exact i3 i
      · rw [run_full c.f t c.arg c.us (by omega)]
        exact ⟨i1, i2, i3⟩
    | sync s =>
      have e : (op.sync s).run t = sync_trace_sock t s := rfl
      rw [e]
      obtain ⟨a1, a2, _, a4⟩ := sync_spec t s
      refine ⟨by rw [a2, i1], by rw [a1]; exact i2, ?_⟩
      intro i
      rw [a4 i]
      obtain ⟨w1, w2, w3, _⟩ := i3 i
      split
      · refine ⟨w1, w2, w3, ?_⟩
        simp only [u32_sub]; omega
      · exact i3 i

/-! ## Helper lemmas on the dump and its decoding -/

theorem written_append (a b : List io_event) :
    written (a ++ b) = written a ++ written b := by
  induction a with
  | nil => rfl
  | cons e a ih =>
    cases e <;> simp [written, ih]

theorem dump_again_written (open_ : open_oracle) (path : List Char) :
    ∀ fuel n flags log r,
      dump_again open_ path fuel n flags = some (log, r) → written log = [] := by
  intro fuel
  induction fuel with
  | zero => intro n flags log r h; simp [dump_again] at h
  | succ fuel ih =>
    intro n flags log r h
    unfold dump_again at h
    split at h
    · simp only [Option.some.injEq, Prod.mk.injEq] at h
      rw [← h.1]; rfl
    · split at h
      · split at h
        · rename_i log1 r1 h1
          simp only [Option.some.injEq, Prod.mk.injEq] at h
          rw [← h.1]
          show written log1 = []
          exact ih _ _ _ _ h1
        · simp at h
      · simp only [Option.some.injEq, Prod.mk.injEq] at h
        rw [← h.1]; rfl

/-- A run of `dump_trace_sock` writes nothing, or the header followed by the
records below `trace_idx`. -/
theorem dump_written (t : thread) (open_ : open_oracle) (fuel : Nat)
    (log : List io_event) (h : dump_trace_sock t open_ fuel = some log) :
    written log = [] ∨ written log = head_bytes t ++ buf_bytes t := by
  unfold dump_trace_sock at h
  split at h
  · simp at h
  · rename_i log1 h1
    simp only [Option.some.injEq] at h
    rw [← h]
    exact Or.inl (dump_again_written _ _ _ _ _ _ _ h1)
  · rename_i log1 fd h1
    simp only [Option.some.injEq] at h
    rw [← h, written_append, dump_again_written _ _ _ _ _ _ _ h1]
    right
    simp [written]

theorem record_bytes_eq (r : trace_record) :
    record_bytes r =
      [r.tid % 256, r.event % 256, r.cid % 256, r.cid / 256 % 256,
       r.us % 256, r.us / 256 % 256, r.us / 256 / 256 % 256,
       r.us / 256 / 256 / 256 % 256] := rfl

theorem record_bytes_length (r : trace_record) : (record_bytes r).length = 8 := rfl

theorem decode_record_bytes (r : trace_record) (h : r.wf) :
    decode_record (record_bytes r) = some r := by
  obtain ⟨h1, h2, h3, h4⟩ := h
  cases r with
  | mk tid event cid us =>
    simp only at h1 h2 h3 h4
    rw [record_bytes_eq]
    simp only [decode_record, List.length_cons, List.length_nil, if_true, le_val,
      List.take, List.drop, Option.some.injEq, trace_record.mk.injEq]
    omega

theorem buf_bytes_eq (t : thread) :
    buf_bytes t = ((recorded t).map record_bytes).flatten := by
  simp [buf_bytes, recorded, List.map_map, Function.comp_def]

theorem decode_records_bytes (rs : List trace_record) (h : ∀ r ∈ rs, r.wf) :
    decode_records rs.length ((rs.map record_bytes).flatten) = some rs := by
  induction rs with
  | nil => rfl
  | cons r rs ih =>
    have hr : r.wf := h r (List.mem_cons_self _ _)
    have hrs : ∀ x ∈ rs, x.wf := fun x hx => h x (List.mem_cons_of_mem _ hx)
    simp only [List.map_cons, List.flatten_cons, List.length_cons, decode_records]
    have htake : List.take 8 (record_bytes r ++ (rs.map record_bytes).flatten)
        = record_bytes r := by
      rw [List.take_append_of_le_length (by rw [record_bytes_length])]
      exact List.take_of_length_le (by rw [record_bytes_length])
    have hdrop : List.drop 8 (record_bytes r ++ (rs.map record_bytes).flatten)
        = (rs.map record_bytes).flatten := by
      rw [List.drop_append_of_le_length (by rw [record_bytes_length])]
      rw [List.drop_of_length_le (by rw [record_bytes_length])]
      rfl
    rw [htake, hdrop, decode_record_bytes r hr, ih hrs]

theorem flatten_record_bytes_length (rs : List trace_record) :
    ((rs.map record_bytes).flatten).length = 8 * rs.length := by
  induction rs with
  | nil => rfl
  | cons r rs ih =>
    simp only [List.map_cons, List.flatten_cons, List.length_append, List.length_cons,
      record_bytes_length, ih]
    omega

theorem recorded_length (t : thread) : (recorded t).length = t.trace_idx := by
  simp [recorded]

theorem head_bytes_eq (t : thread) (h : t.trace_idx < 4294967296) :
    head_bytes t =
      [2, 0, 0, 0, t.trace_idx % 256, t.trace_idx / 256 % 256,
       t.trace_idx / 256 / 256 % 256, t.trace_idx / 256 / 256 / 256 % 256] := by
  simp [head_bytes, le_bytes, to_u32, Nat.mod_eq_of_lt h]

/-- Decoding the emitted bytes gives back version 2, the record count and the
recorded records. -/
theorem decode_dump (t : thread) (hidx : t.trace_idx < 4294967296)
    (hwf : ∀ i, i < t.trace_idx → (t.trace_buf i).wf) :
    (head_bytes t ++ buf_bytes t).length = 8 + 8 * t.trace_idx ∧
    decode_file (head_bytes t ++ buf_bytes t) = some ⟨2, t.trace_idx, recorded t⟩ := by
  have hrec : ∀ r ∈ recorded t, r.wf := by
    intro r hr
    simp only [recorded, List.mem_map, List.mem_range] at hr
    obtain ⟨i, hi, rfl⟩ := hr
    exact hwf i hi
  have hcount : le_val [t.trace_idx % 256, t.trace_idx / 256 % 256,
      t.trace_idx / 256 / 256 % 256, t.trace_idx / 256 / 256 / 256 % 256]
      = t.trace_idx := by
    simp only [le_val]; omega
  have hdec := decode_records_bytes (recorded t) hrec
  rw [recorded_length] at hdec
  rw [buf_bytes_eq, head_bytes_eq t hidx]
  constructor
  · simp only [List.length_append, List.length_cons, List.length_nil,
      flatten_record_bytes_length, recorded_length]
  · have hlen : 8 ≤ ([2, 0, 0, 0, t.trace_idx % 256, t.trace_idx / 256 % 256,
        t.trace_idx / 256 / 256 % 256, t.trace_idx / 256 / 256 / 256 % 256]
        ++ ((recorded t).map record_bytes).flatten).length := by
      simp
    unfold decode_file
    rw [if_pos hlen]
    simp only [List.cons_append, List.nil_append, List.drop_succ_cons, List.drop_zero,
      List.take_succ_cons, List.take_zero, hcount, hdec]
    rfl

theorem to_u8_toNat (x : Int) (h0 : 0 ≤ x) (h : x < 256) : to_u8 x = x.toNat := by
  unfold to_u8
  rw [Int.emod_eq_of_lt h0 h]

/-- The state of the scenario: a request at 1000 and its response at 1500 on
correlation id 42, recorded on a fresh buffer of capacity 5 and normalised by
900. -/
theorem scenario_state (t : thread) (hfresh : t.trace_idx = 0)
    (hcap : t.trace_max_idx = 5) (hid0 : 0 ≤ t.id) (hid : t.id < 256) :
    (sync_trace_sock (trace_sock_resp (trace_sock_write t 42 1000) 42 1500) 900).trace_idx
      = 2 ∧
    recorded (sync_trace_sock (trace_sock_resp (trace_sock_write t 42 1000) 42 1500) 900)
      = [⟨t.id.toNat, 0, 42, 100⟩, ⟨t.id.toNat, 1, 42, 600⟩] := by
  have hrun : trace_sock_resp (trace_sock_write t 42 1000) 42 1500
      = run_calls t [⟨recorder.sock_write, 42, 1000⟩, ⟨recorder.sock_resp, 42, 1500⟩] := rfl
  obtain ⟨a1, _, _, _, a5⟩ := run_calls_fit
    [⟨recorder.sock_write, 42, 1000⟩, ⟨recorder.sock_resp, 42, 1500⟩] t
    (by rw [hfresh, hcap]; decide)
  rw [hrun]
  generalize run_calls t [⟨recorder.sock_write, 42, 1000⟩, ⟨recorder.sock_resp, 42, 1500⟩]
    = t2 at a1 a5
  have i2 : t2.trace_idx = 2 := by rw [a1, hfresh]; rfl
  have r0 := a5 0 ⟨recorder.sock_write, 42, 1000⟩ rfl
  have r1 := a5 1 ⟨recorder.sock_resp, 42, 1500⟩ rfl
  rw [hfresh] at r0 r1
  obtain ⟨b1, _, _, b4⟩ := sync_spec t2 900
  refine ⟨by rw [b1, i2], ?_⟩
  unfold recorded
  rw [b1, i2]
  show [_, _] = _
  rw [b4 0, b4 1, i2, if_pos (by decide), if_pos (by decide)]
  simp only [Nat.zero_add] at r0 r1
  rw [r0, r1]
  simp only [call.record, to_u8_toNat t.id hid0 hid]
  rfl

/-! ## Helper lemmas on the open loop -/

/-- The loop run forward: when the attempts `n, ..., n + m - 1` all fail with
`EEXIST`, `m + 1` attempts of fuel are enough, and the answer to attempt
`n + m` decides the result. -/
theorem dump_again_forward (open_ : open_oracle) (path : List Char) :
    ∀ m fuel n flags, m < fuel →
      (∀ k, k < m →
        open_ (n + k) path (if k = 0 then flags else O_RDWR) 438 = .error EEXIST) →
      (∀ fd, open_ (n + m) path (if m = 0 then flags else O_RDWR) 438 = .ok fd →
        dump_again open_ path fuel n flags = some (open_log path flags m, some fd)) ∧
      (∀ e, e ≠ EEXIST →
        open_ (n + m) path (if m = 0 then flags else O_RDWR) 438 = .error e →
        dump_again open_ path fuel n flags
          = some (open_log path flags m ++ [io_event.report path e], none)) := by
  intro m
  induction m with
  | zero =>
    intro fuel n flags hf _
    obtain ⟨f, rfl⟩ : ∃ f, fuel = f + 1 := ⟨fuel - 1, by omega⟩
    constructor
    · intro fd h
      simp only [Nat.add_zero, if_true] at h
      simp only [dump_again, h, open_log, List.replicate]
    · intro e he h
      simp only [Nat.add_zero, if_true] at h
      simp only [dump_again, h, if_neg he, open_log, List.replicate, List.cons_append,
        List.nil_append]
  | succ m ih =>
    intro fuel n flags hf hk
    obtain ⟨f, rfl⟩ : ∃ f, fuel = f + 1 := ⟨fuel - 1, by omega⟩
    have h0 : open_ n path flags 438 = .error EEXIST := by
      have := hk 0 (by omega)
      simpa using this
    have hk1 : ∀ k, k < m →
        open_ (n + 1 + k) path (if k = 0 then O_RDWR else O_RDWR) 438
          = .error EEXIST := by
      intro k hlt
      have := hk (k + 1) (by omega)
      simp only [Nat.succ_ne_zero, if_false] at this
      rw [ite_self]
      rw [show n + 1 + k = n + (k + 1) by omega]
      exact this
    obtain ⟨i1, i2⟩ := ih f (n + 1) O_RDWR (by omega) hk1
    rw [ite_self] at i1 i2
    rw [show n + 1 + m = n + (m + 1) by omega] at i1 i2
    constructor
    · intro fd h
      simp only [Nat.succ_ne_zero, if_false] at h
      simp only [dump_again, h0, if_true, i1 fd h]
      rfl
    · intro e he h
      simp only [Nat.succ_ne_zero, if_false] at h
      simp only [dump_again, h0, if_true, i2 e he h]
      rfl

/-- The loop read backward: a result comes from some number `m + 1` of
attempts, of which all but the last failed with `EEXIST`. -/
theorem dump_again_backward (open_ : open_oracle) (path : List Char) :
    ∀ fuel n flags log r, dump_again open_ path fuel n flags = some (log, r) →
      ∃ m, m < fuel ∧
        (∀ k, k < m →
          open_ (n + k) path (if k = 0 then flags else O_RDWR) 438 = .error EEXIST) ∧
        ((∃ fd, open_ (n + m) path (if m = 0 then flags else O_RDWR) 438 = .ok fd ∧
            r = some fd ∧ log = open_log path flags m) ∨
         (∃ e, e ≠ EEXIST ∧
            open_ (n + m) path (if m = 0 then flags else O_RDWR) 438 = .error e ∧
            r = none ∧ log = open_log path flags m ++ [io_event.report path e])) := by
  intro fuel
  induction fuel with
  | zero => intro n flags log r h; simp [dump_again] at h
  | succ fuel ih =>
    intro n flags log r h
    unfold dump_again at h
    split at h
    · rename_i fd hfd
      simp only [Option.some.injEq, Prod.mk.injEq] at h
      refine ⟨0, by omega, fun k hk => absurd hk (Nat.not_lt_zero k), Or.inl ⟨fd, ?_, h.2.symm, h.1.symm⟩⟩
      simpa using hfd
    · rename_i e he
      split at h
      · rename_i heq
        split at h
        · rename_i log1 r1 h1
          simp only [Option.some.injEq, Prod.mk.injEq] at h
          obtain ⟨m, hm, hk, hlast⟩ := ih (n + 1) O_RDWR log1 r1 h1
          rw [ite_self] at hlast
          rw [show n + 1 + m = n + (m + 1) by omega] at hlast
          refine ⟨m + 1, by omega, ?_, ?_⟩
          · intro k hlt
            cases k with
            | zero => simpa [heq] using he
            | succ k =>
              have := hk k (by omega)
              rw [ite_self] at this
              rw [show n + 1 + k = n + (k + 1) by omega] at this
              simpa using this
          · simp only [Nat.succ_ne_zero, if_false]
            rcases hlast with ⟨fd, a1, a2, a3⟩ | ⟨e1, a0, a1, a2, a3⟩
            · exact Or.inl ⟨fd, a1, by rw [← h.2, a2], by rw [← h.1, a3]; rfl⟩
            · exact Or.inr ⟨e1, a0, a1, by rw [← h.2, a2], by rw [← h.1, a3]; rfl⟩
        · simp at h
      · rename_i hne
        simp only [Option.some.injEq, Prod.mk.injEq] at h
        refine ⟨0, by omega, fun k hk => absurd hk (Nat.not_lt_zero k),
          Or.inr ⟨e, hne, ?_, h.2.symm, ?_⟩⟩
        · simpa using he
        · rw [← h.1]; rfl

/-- With an `open` that always answers `EEXIST` no amount of fuel is enough. -/
theorem dump_again_eexist (path : List Char) :
    ∀ fuel n flags, dump_again (fun _ _ _ _ => .error EEXIST) path fuel n flags = none := by
  intro fuel
  induction fuel with
  | zero => intro n flags; rfl
  | succ fuel ih =>
    intro n flags
    simp only [dump_again, if_true, ih]

theorem open_attempts_append (a b : List io_event) :
    open_attempts (a ++ b) = open_attempts a + open_attempts b := by
  induction a with
  | nil => simp [open_attempts]
  | cons e a ih =>
    cases e <;> simp [open_attempts, ih]
    omega

theorem open_attempts_open_log (path : List Char) (flags m : Nat) :
    open_attempts (open_log path flags m) = m + 1 := by
  have hrep : ∀ k, open_attempts
      (List.replicate k (io_event.open_call path O_RDWR 438)) = k := by
    intro k
    induction k with
    | zero => rfl
    | succ k ih => simp [List.replicate, open_attempts, ih]
  simp [open_log, open_attempts, hrep]

theorem written_open_log (path : List Char) (flags m : Nat) :
    written (open_log path flags m) = [] := by
  have hrep : ∀ k, written
      (List.replicate k (io_event.open_call path O_RDWR 438)) = [] := by
    intro k
    induction k with
    | zero => rfl
    | succ k ih => simp [List.replicate, written, ih]
  simp [open_log, written, hrep]

theorem dump_of_again_ok (t : thread) (open_ : open_oracle) (fuel fd : Nat)
    (log1 : List io_event)
    (h : dump_again open_ (trace_path t.id) fuel 0 (O_RDWR ||| O_CREAT ||| O_EXCL)
      = some (log1, some fd)) :
    dump_trace_sock t open_ fuel
      = some (log1 ++ [io_event.write_call fd (head_bytes t),
                       io_event.write_call fd (buf_bytes t),
                       io_event.close_call fd]) := by
  simp only [dump_trace_sock, h]

theorem dump_of_again_err (t : thread) (open_ : open_oracle) (fuel : Nat)
    (log1 : List io_event)
    (h : dump_again open_ (trace_path t.id) fuel 0 (O_RDWR ||| O_CREAT ||| O_EXCL)
      = some (log1, none)) :
    dump_trace_sock t open_ fuel = some log1 := by
  simp only [dump_trace_sock, h]

theorem ex_open_exists_posix : posix_eexist ex_open_exists := by
  intro n path flags mode hfl
  simp only [ex_open_exists, if_pos hfl]
  intro hc
  cases hc

/-! ## Helper lemmas on the path -/

theorem digitChar_val (k : Nat) (h : k < 10) : (Nat.digitChar k).toNat - 48 = k := by
  interval_cases k <;> rfl

theorem digitChar_ne_minus (k : Nat) (h : k < 10) : Nat.digitChar k ≠ '-' := by
  interval_cases k <;> decide

/-- Reading the digits of `n` pushed in front of `ds` is reading `ds` from the
accumulator `n` on. -/
theorem digits_val_toDigitsCore : ∀ fuel n ds, n < fuel →
    digits_val 0 (Nat.toDigitsCore 10 fuel n ds) = digits_val n ds := by
  intro fuel
  induction fuel with
  | zero => intro n ds h; omega
  | succ fuel ih =>
    intro n ds h
    unfold Nat.toDigitsCore
    simp only
    split
    · rename_i h0
      simp only [digits_val, List.foldl_cons, digitChar_val (n % 10) (Nat.mod_lt _ (by decide))]
      congr 1
      omega
    · rename_i h0
      rw [ih (n / 10) _ (by omega)]
      simp only [digits_val, List.foldl_cons, digitChar_val (n % 10) (Nat.mod_lt _ (by decide))]
      congr 1
      omega

theorem digits_val_toDigits (n : Nat) : digits_val 0 (Nat.toDigits 10 n) = n :=
  digits_val_toDigitsCore (n + 1) n [] (Nat.lt_succ_self n)

/-- The digits of a number start with a digit. -/
theorem toDigitsCore_head : ∀ fuel n ds,
    (fuel = 0 → ∃ k, k < 10 ∧ ∃ rest, ds = Nat.digitChar k :: rest) →
    ∃ k, k < 10 ∧ ∃ rest, Nat.toDigitsCore 10 fuel n ds = Nat.digitChar k :: rest := by
  intro fuel
  induction fuel with
  | zero => intro n ds h; exact h rfl
  | succ fuel ih =>
    intro n ds _
    unfold Nat.toDigitsCore
    simp only
    split
    · exact ⟨n % 10, Nat.mod_lt _ (by decide), ds, rfl⟩
    · exact ih (n / 10) _ (fun _ => ⟨n % 10, Nat.mod_lt _ (by decide), ds, rfl⟩)

theorem toDigits_head (n : Nat) :
    ∃ k, k < 10 ∧ ∃ rest, Nat.toDigits 10 n = Nat.digitChar k :: rest :=
  toDigitsCore_head (n + 1) n [] (fun h => absurd h (Nat.succ_ne_zero n))

/-- Reading a rendered `int` back gives the `int`. -/
theorem parse_fmt_d (x : Int) : parse_d (fmt_d x) = x := by
  cases x with
  | ofNat n =>
    obtain ⟨k, hk, rest, hrest⟩ := toDigits_head n
    have hv := digits_val_toDigits n
    show parse_d (Nat.toDigits 10 n) = _
    rw [hrest] at hv ⊢
    simp only [parse_d, if_neg (digitChar_ne_minus k hk), hv]
    rfl
  | negSucc n =>
    show parse_d ('-' :: Nat.toDigits 10 (n + 1)) = _
    simp only [parse_d, if_true, digits_val_toDigits]
    rfl

theorem fmt_d_injective (x y : Int) (h : fmt_d x = fmt_d y) : x = y := by
  rw [← parse_fmt_d x, ← parse_fmt_d y, h]

theorem toDigits_length (n : Nat) (h : n < 10000000000) :
    (Nat.toDigits 10 n).length ≤ 10 :=
  Nat.toDigitsCore_length 10 (by decide) (n + 1) n 10 h (by decide)

/-- An `int` is rendered with at most 11 characters. -/
theorem fmt_d_length (x : Int) (h0 : -2147483648 ≤ x) (h1 : x ≤ 2147483647) :
    (fmt_d x).length ≤ 11 := by
  cases x with
  | ofNat n =>
    have h1n : (n : Int) ≤ 2147483647 := h1
    have := toDigits_length n (by omega)
    show (Nat.toDigits 10 n).length ≤ 11
    omega
  | negSucc n =>
    have h0n : -2147483648 ≤ -((n : Int) + 1) := by
      rw [← Int.negSucc_eq]; exact h0
    have := toDigits_length (n + 1) (by omega)
    show ('-' :: Nat.toDigits 10 (n + 1)).length ≤ 11
    simp only [List.length_cons]
    omega

theorem fmt_d_toString (x : Int) : fmt_d x = (toString x).toList := by
  cases x <;> rfl

theorem mem_open_log (path : List Char) (flags m : Nat) (e : io_event)
    (h : e ∈ open_log path flags m) :
    e = io_event.open_call path flags 438 ∨ e = io_event.open_call path O_RDWR 438 := by
  simp only [open_log, List.mem_cons, List.mem_replicate] at h
  rcases h with h | ⟨_, h⟩
  · exact Or.inl h
  · exact Or.inr h

/-- Every `open` call of a run is on the path of the thread. -/
theorem dump_opens_path (t : thread) (open_ : open_oracle) (fuel : Nat)
    (log : List io_event) (h : dump_trace_sock t open_ fuel = some log)
    (p : List Char) (fl md : Nat) (hmem : io_event.open_call p fl md ∈ log) :
    p = trace_path t.id := by
  have hlog : ∀ m, io_event.open_call p fl md ∈
      open_log (trace_path t.id) (O_RDWR ||| O_CREAT ||| O_EXCL) m →
      p = trace_path t.id := by
    intro m hm
    rcases mem_open_log _ _ _ _ hm with h1 | h1 <;>
      (injection h1 with h1 _ _)
  unfold dump_trace_sock at h
  split at h
  · simp at h
  · rename_i log1 h1
    simp only [Option.some.injEq] at h
    subst h
    obtain ⟨m, _, _, hlast⟩ := dump_again_backward open_ _ _ _ _ _ _ h1
    rcases hlast with ⟨_, _, _, a3⟩ | ⟨e, _, _, _, a3⟩
    · rw [a3] at hmem
      exact hlog m hmem
    · rw [a3, List.mem_append] at hmem
      rcases hmem with hm | hm
      · exact hlog m hm
      · simp at hm
  · rename_i log1 fd h1
    simp only [Option.some.injEq] at h
    subst h
    obtain ⟨m, _, _, hlast⟩ := dump_again_backward open_ _ _ _ _ _ _ h1
    rw [List.mem_append] at hmem
    rcases hmem with hm | hm
    · rcases hlast with ⟨_, _, _, a3⟩ | ⟨e, _, _, _, a3⟩
      · rw [a3] at hm
        exact hlog m hm
      · rw [a3, List.mem_append] at hm
        rcases hm with hm | hm
        · exact hlog m hm
        · simp at hm
    · simp at hm

/-- Within the range of a C `int` the path is not truncated. -/
theorem trace_path_full (x : Int) (h0 : -2147483648 ≤ x) (h1 : x ≤ 2147483647) :
    trace_path x = "wrk-thread".toList ++ fmt_d x ++ ".trace".toList ∧
    (trace_path x).length ≤ 27 := by
  have hlen := fmt_d_length x h0 h1
  have htot : ("wrk-thread".toList ++ fmt_d x ++ ".trace".toList).length
      = 10 + (fmt_d x).length + 6 := by
    simp only [List.length_append]
    rfl
  have hfull : trace_path x = "wrk-thread".toList ++ fmt_d x ++ ".trace".toList := by
    unfold trace_path
    exact List.take_of_length_le (by omega)
  exact ⟨hfull, by rw [hfull, htot]; omega⟩

/-! ## Helper lemmas for frames, narrowing and composition -/

theorem thread_ext (a b : thread) (h1 : a.id = b.id) (h2 : a.trace_idx = b.trace_idx)
    (h3 : a.trace_max_idx = b.trace_max_idx)
    (h4 : ∀ i, a.trace_buf i = b.trace_buf i) : a = b := by
  cases a
  cases b
  simp only [thread.mk.injEq]
  exact ⟨h1, h2, h3, funext h4⟩

/-- What a recording call leaves alone, whether the buffer has room or not. -/
theorem run_frame (f : recorder) (t : thread) (arg : Int) (us : Nat) :
    (f.run t arg us).trace_max_idx = t.trace_max_idx ∧
    (f.run t arg us).id = t.id ∧
    t.trace_idx ≤ (f.run t arg us).trace_idx ∧
    ∀ j, j ≠ t.trace_idx → (f.run t arg us).trace_buf j = t.trace_buf j := by
  by_cases hroom : t.trace_idx < t.trace_max_idx
  · rw [run_room f t arg us hroom]
    exact ⟨rfl, rfl, Nat.le_succ _, fun j hj => Function.update_noteq hj _ _⟩
  · rw [run_full f t arg us (by omega)]
    exact ⟨rfl, rfl, Nat.le_refl _, fun _ _ => rfl⟩

/-- A sequence of calls of any length never touches the records already
written. -/
theorem run_calls_frame (cs : List call) : ∀ t : thread,
    t.trace_idx ≤ (run_calls t cs).trace_idx ∧
    ∀ j, j < t.trace_idx → (run_calls t cs).trace_buf j = t.trace_buf j := by
  induction cs with
  | nil => intro t; exact ⟨Nat.le_refl _, fun _ _ => rfl⟩
  | cons c cs ih =>
    intro t
    have hstep : run_calls t (c :: cs) = run_calls (c.f.run t c.arg c.us) cs := rfl
    obtain ⟨_, _, f3, f4⟩ := run_frame c.f t c.arg c.us
    obtain ⟨a1, a2⟩ := ih (c.f.run t c.arg c.us)
    rw [hstep]
    refine ⟨by omega, ?_⟩
    intro j hj
    rw [a2 j (by omega), f4 j (by omega)]

theorem to_u8_int (x : Int) : (to_u8 x : Int) = x % 256 := by
  unfold to_u8
  exact Int.toNat_of_nonneg (Int.emod_nonneg _ (by decide))

theorem to_u16_int (x : Int) : (to_u16 x : Int) = x % 65536 := by
  unfold to_u16
  exact Int.toNat_of_nonneg (Int.emod_nonneg _ (by decide))

/-- Two 32-bit subtractions in a row are one subtraction of the 32-bit sum. -/
theorem u32_sub_sub (a s1 s2 : Nat) :
    u32_sub (u32_sub a s1) s2 = u32_sub a ((s1 + s2) % 4294967296) := by
  unfold u32_sub
  omega

theorem u32_sub_zero (a : Nat) (h : a < 4294967296) : u32_sub a 0 = a := by
  unfold u32_sub
  omega

theorem u32_sub_ne (a s : Nat) (hs : s % 4294967296 ≠ 0) :
    u32_sub (u32_sub a s) s ≠ u32_sub a s := by
  unfold u32_sub
  omega

/-! ## The claims -/

/-- C1: with room left (`trace_idx < trace_max_idx`), each of the eleven
recording functions, called by a thread with identifier in `0..255` with a
correlation argument in `0..65535` and a timestamp below `2^32`, writes at the
old index a record holding the thread identifier, the ordinal of the function,
the correlation argument (0 for `trace_loop_start`) and the timestamp, and
advances `trace_idx` by exactly one. -/
theorem C1_record_written (f : recorder) (t : thread) (arg : Int) (us : Nat)
    (hroom : t.trace_idx < t.trace_max_idx)
    (hid0 : 0 ≤ t.id) (hid : t.id < 256)
    (harg0 : 0 ≤ arg) (harg : arg ≤ 65535)
    (hus : us < 4294967296) :
    (((f.run t arg us).trace_buf t.trace_idx).tid : Int) = t.id ∧
    ((f.run t arg us).trace_buf t.trace_idx).event = f.ordinal ∧
    (((f.run t arg us).trace_buf t.trace_idx).cid : Int)
      = (if f = recorder.loop_start then 0 else arg) ∧
    ((f.run t arg us).trace_buf t.trace_idx).us = us ∧
    (f.run t arg us).trace_idx = t.trace_idx + 1 := by
  rw [run_room f t arg us hroom]
  simp only [Function.update_same, call.record, recorder.corr]
  refine ⟨to_u8_small _ hid0 hid, trivial, ?_, Nat.mod_eq_of_lt hus, trivial⟩
  split
  · rfl
  · exact to_u16_small _ harg0 harg

/-- Instance of C1: thread 7 with an empty buffer of capacity 2 calling
`trace_epoll_wake` with return value 3 at time 1000. -/
theorem C1_record_written_witness :
    ex_empty.trace_idx < ex_empty.trace_max_idx ∧
    (((recorder.epoll_wake.run ex_empty 3 1000).trace_buf 0).tid : Int) = 7 ∧
    ((recorder.epoll_wake.run ex_empty 3 1000).trace_buf 0).event = 6 ∧
    (((recorder.epoll_wake.run ex_empty 3 1000).trace_buf 0).cid : Int) = 3 ∧
    ((recorder.epoll_wake.run ex_empty 3 1000).trace_buf 0).us = 1000 ∧
    (recorder.epoll_wake.run ex_empty 3 1000).trace_idx = 1 :=
  ⟨by decide, C1_record_written recorder.epoll_wake ex_empty 3 1000
    (by decide) (by decide) (by decide) (by decide) (by decide) (by decide)⟩

/-- C2: on a full buffer (`trace_idx >= trace_max_idx`) each of the eleven
recording functions, with any arguments, returns the state it was given:
`trace_idx`, `trace_max_idx` and every record are unchanged. -/
theorem C2_full_buffer_drops (f : recorder) (t : thread) (arg : Int) (us : Nat)
    (hfull : t.trace_max_idx ≤ t.trace_idx) :
    f.run t arg us = t ∧
    (f.run t arg us).trace_idx = t.trace_idx ∧
    (f.run t arg us).trace_max_idx = t.trace_max_idx ∧
    ∀ i, (f.run t arg us).trace_buf i = t.trace_buf i := by
  rw [run_full f t arg us hfull]
  exact ⟨rfl, rfl, rfl, fun _ => rfl⟩

/-- Instance of C2: `trace_loop_start` on a buffer of capacity 2 holding 2
records. -/
theorem C2_full_buffer_drops_witness :
    ex_full.trace_max_idx ≤ ex_full.trace_idx ∧
    recorder.loop_start.run ex_full 0 55 = ex_full :=
  ⟨by decide, (C2_full_buffer_drops recorder.loop_start ex_full 0 55 (by decide)).1⟩

/-- C3: from a fresh buffer (`trace_idx = 0`) of capacity `trace_max_idx`
owned by a thread with identifier in `0..255`, any sequence of at most
`trace_max_idx` recording calls leaves `trace_idx` equal to the number of
calls, and the record at each index `i` below it is the record of the `i`-th
call, with `tid` equal to the identifier of the owning thread. -/
theorem C3_calls_fill_in_order (t : thread) (cs : List call)
    (hfresh : t.trace_idx = 0) (hfit : cs.length ≤ t.trace_max_idx)
    (hid0 : 0 ≤ t.id) (hid : t.id < 256) :
    (run_calls t cs).trace_idx = cs.length ∧
    ∀ i (h : i < cs.length),
      (run_calls t cs).trace_buf i = call.record t.id cs[i] ∧
      (((run_calls t cs).trace_buf i).tid : Int) = t.id := by
  obtain ⟨a1, _, _, _, a5⟩ := run_calls_fit cs t (by omega)
  refine ⟨by omega, ?_⟩
  intro i h
  have h5 := a5 i cs[i] (List.getElem?_eq_getElem h)
  rw [hfresh, Nat.zero_add] at h5
  rw [h5]
  exact ⟨rfl, to_u8_small _ hid0 hid⟩

/-- Instance of C3: two calls on the empty buffer of capacity 2. -/
theorem C3_calls_fill_in_order_witness :
    ex_empty.trace_idx = 0 ∧ (ex_calls.take 2).length ≤ ex_empty.trace_max_idx ∧
    (run_calls ex_empty (ex_calls.take 2)).trace_idx = 2 ∧
    (run_calls ex_empty (ex_calls.take 2)).trace_buf 1 = ⟨7, 1, 42, 1500⟩ :=
  ⟨rfl, by decide,
    (C3_calls_fill_in_order ex_empty (ex_calls.take 2) rfl (by decide)
      (by decide) (by decide)).1,
    ((C3_calls_fill_in_order ex_empty (ex_calls.take 2) rfl (by decide)
      (by decide) (by decide)).2 1 (by decide)).1⟩

/-- C4: from a fresh buffer of capacity `C = trace_max_idx`, a sequence of
more than `C` recording calls leaves `trace_idx = C`, the records at the
indices `0..C-1` are those of the first `C` calls in call order, and the state
after the first `C` calls is the state after every longer initial part of the
sequence (so also after the whole of it). -/
theorem C4_saturates (t : thread) (cs : List call)
    (hfresh : t.trace_idx = 0) (hover : t.trace_max_idx < cs.length) :
    (run_calls t cs).trace_idx = t.trace_max_idx ∧
    (∀ i (h : i < t.trace_max_idx),
      (run_calls t cs).trace_buf i
        = call.record t.id (cs.get ⟨i, Nat.lt_trans h hover⟩)) ∧
    (∀ k, t.trace_max_idx ≤ k →
      run_calls t (cs.take k) = run_calls t (cs.take t.trace_max_idx)) := by
  have hlen : (cs.take t.trace_max_idx).length = t.trace_max_idx := by
    rw [List.length_take]; omega
  obtain ⟨a1, a2, _, _, a5⟩ :=
    run_calls_fit (cs.take t.trace_max_idx) t (by omega)
  have hsat : ∀ k, t.trace_max_idx ≤ k →
      run_calls t (cs.take k) = run_calls t (cs.take t.trace_max_idx) := by
    intro k hk
    have hsplit : cs.take k =
        cs.take t.trace_max_idx ++ (cs.take k).drop t.trace_max_idx := by
      conv_lhs => rw [← List.take_append_drop t.trace_max_idx (cs.take k)]
      rw [List.take_take, Nat.min_eq_left hk]
    rw [hsplit, run_calls_append]
    exact run_calls_full _ _ (by omega)
  have hall : run_calls t cs = run_calls t (cs.take t.trace_max_idx) := by
    have := hsat cs.length (by omega)
    rwa [List.take_length] at this
  rw [hall]
  refine ⟨by omega, ?_, hsat⟩
  intro i h
  have h5 := a5 i (cs.get ⟨i, Nat.lt_trans h hover⟩) (by
    rw [List.getElem?_take_of_lt h, List.get_eq_getElem]
    exact List.getElem?_eq_getElem _)
  rw [hfresh, Nat.zero_add] at h5
  exact h5

/-- Instance of C4: three calls on the empty buffer of capacity 2; the third
call, a loop start, is dropped. -/
theorem C4_saturates_witness :
    ex_empty.trace_idx = 0 ∧ ex_empty.trace_max_idx < ex_calls.length ∧
    (run_calls ex_empty ex_calls).trace_idx = 2 ∧
    (run_calls ex_empty ex_calls).trace_buf 1 = ⟨7, 1, 42, 1500⟩ ∧
    run_calls ex_empty (ex_calls.take 3) = run_calls ex_empty (ex_calls.take 2) :=
  ⟨rfl, by decide, (C4_saturates ex_empty ex_calls rfl (by decide)).1,
    (C4_saturates ex_empty ex_calls rfl (by decide)).2.1 1 (by decide),
    (C4_saturates ex_empty ex_calls rfl (by decide)).2.2 3 (by decide)⟩

/-- C5: `0 <= trace_idx <= trace_max_idx` is an invariant: `open_trace_sock`
establishes it, each of the eleven recording functions and `sync_trace_sock`
preserve it, it holds in every state reached from `open_trace_sock` by these
operations, and a recording function leaves every record at an index
`>= trace_max_idx` as it was: it writes below `trace_max_idx` only. -/
theorem C5_index_invariant :
    (∀ t0 t ok, open_trace_sock t0 ok = some t → trace_inv t) ∧
    (∀ (f : recorder) t arg us, trace_inv t → trace_inv (f.run t arg us)) ∧
    (∀ t s, trace_inv t → trace_inv (sync_trace_sock t s)) ∧
    (∀ t, reachable t → trace_inv t) ∧
    (∀ (f : recorder) t arg us j,
      t.trace_max_idx ≤ j → (f.run t arg us).trace_buf j = t.trace_buf j) := by
  refine ⟨?_, run_inv, sync_inv, reachable_inv, ?_⟩
  · intro t0 t ok h
    exact reachable_inv t (reachable.opened t0 t ok h)
  · intro f t arg us j hj
    by_cases hroom : t.trace_idx < t.trace_max_idx
    · rw [run_room f t arg us hroom]
      exact Function.update_noteq (by omega) _ _
    · rw [run_full f t arg us (by omega)]

/-- Instance of C5: the state reached by opening a buffer, recording a
response and normalising satisfies the invariant. -/
theorem C5_index_invariant_witness :
    ∃ t, open_trace_sock ex_full true = some t ∧
      trace_inv (sync_trace_sock (recorder.sock_resp.run t 42 1500) 900) :=
  ⟨_, rfl, C5_index_invariant.2.2.2.1 _
    (reachable.step _ (op.sync 900)
      (reachable.step _ (op.record ⟨recorder.sock_resp, 42, 1500⟩)
        (reachable.opened ex_full _ true rfl)))⟩

/-- C6: after `sync_trace_sock(t, start_us)` with a 32-bit `start_us`, the
timestamp of every record below `trace_idx` is the old timestamp minus
`start_us` modulo `2^32`; the list of recorded timestamps `[a, b, c]` becomes
`[a - t0, b - t0, c - t0]` modulo `2^32`; and a timestamp smaller than
`start_us` becomes `old + 2^32 - start_us`: it wraps and is not clamped. -/
theorem C6_sync_subtracts (t : thread) (start_us : Nat)
    (hs : start_us < 4294967296) :
    (∀ i, i < t.trace_idx →
      (((sync_trace_sock t start_us).trace_buf i).us : Int)
        = (((t.trace_buf i).us : Int) - (start_us : Int)) % 4294967296) ∧
    (recorded (sync_trace_sock t start_us)).map (fun r => (r.us : Int))
      = (recorded t).map
          (fun r => ((r.us : Int) - (start_us : Int)) % 4294967296) ∧
    (∀ i, i < t.trace_idx → (t.trace_buf i).us < start_us →
      ((sync_trace_sock t start_us).trace_buf i).us
        = (t.trace_buf i).us + 4294967296 - start_us) := by
  obtain ⟨a1, _, _, a4⟩ := sync_spec t start_us
  have hpt : ∀ i, i < t.trace_idx →
      (((sync_trace_sock t start_us).trace_buf i).us : Int)
        = (((t.trace_buf i).us : Int) - (start_us : Int)) % 4294967296 := by
    intro i hi
    rw [a4 i, if_pos hi]
    exact u32_sub_int _ _
  refine ⟨hpt, ?_, ?_⟩
  · unfold recorded
    rw [a1, List.map_map, List.map_map]
    apply List.map_congr_left
    intro i hi
    exact hpt i (List.mem_range.mp hi)
  · intro i hi hlt
    rw [a4 i, if_pos hi]
    show u32_sub _ _ = _
    unfold u32_sub
    omega

/-- Instance of C6: timestamps 1000, 1500 and 5 normalised by 900. -/
theorem C6_sync_subtracts_witness :
    (900 : Nat) < 4294967296 ∧
    (recorded (sync_trace_sock
        ⟨7, 3, 4, fun i => ⟨7, 0, 1, [1000, 1500, 5].getD i 0⟩⟩ 900)).map
        (fun r => (r.us : Int))
      = [100, 600, 4294966401] :=
  ⟨by decide, (C6_sync_subtracts
    ⟨7, 3, 4, fun i => ⟨7, 0, 1, [1000, 1500, 5].getD i 0⟩⟩ 900 (by decide)).2.1⟩

/-- C7: when `dump_trace_sock` writes at all, the bytes of its two writes have
length `8 + 8 * N` for `N = trace_idx`, they are the header followed by the
bytes of the records at the indices `0..N-1` only, and decoding them as an
`int32` version, a `uint32` count and 8-byte records gives version 2, count
`N` and exactly the in-memory records at the indices `0..N-1` in order.  The
members are assumed to hold values of their C types: `N` fits the `uint32_t`
count and each record field fits its width. -/
theorem C7_dump_roundtrip (t : thread) (open_ : open_oracle) (fuel : Nat)
    (log : List io_event)
    (hidx : t.trace_idx < 4294967296)
    (hwf : ∀ i, i < t.trace_idx → (t.trace_buf i).wf)
    (hdump : dump_trace_sock t open_ fuel = some log)
    (hw : written log ≠ []) :
    (written log).length = 8 + 8 * t.trace_idx ∧
    written log = head_bytes t ++ ((recorded t).map record_bytes).flatten ∧
    decode_file (written log) = some ⟨2, t.trace_idx, recorded t⟩ := by
  have hbytes : written log = head_bytes t ++ buf_bytes t := by
    rcases dump_written t open_ fuel log hdump with h | h
    · exact absurd h hw
    · exact h
  obtain ⟨h1, h2⟩ := decode_dump t hidx hwf
  rw [hbytes]
  exact ⟨h1, by rw [buf_bytes_eq], h2⟩

/-- Instance of C7: dumping the buffer `ex_two`, which holds two records, with
an `open` that succeeds. -/
theorem C7_dump_roundtrip_witness :
    (∃ log, dump_trace_sock ex_two ex_open_ok 1 = some log ∧ written log ≠ []) ∧
    decode_file (head_bytes ex_two ++ buf_bytes ex_two)
      = some ⟨2, 2, [⟨7, 0, 42, 1000⟩, ⟨7, 1, 42, 1001⟩]⟩ :=
  ⟨⟨_, rfl, by decide⟩,
    (C7_dump_roundtrip ex_two ex_open_ok 1 _ (by decide) (by decide) rfl
      (by decide)).2.2⟩

/-- C8: on an empty buffer of capacity 5 owned by a thread with identifier
`tid` in `0..255`, `trace_sock_write(cid=42, us=1000)`, then
`trace_sock_resp(cid=42, us=1500)`, then `sync_trace_sock(start_us=900)`, then
a dump that writes, emits the header `{2, 2}` followed by exactly the two
records `{tid, 0, 42, 100}` and `{tid, 1, 42, 600}`. -/
theorem C8_scenario (t : thread) (open_ : open_oracle) (fuel : Nat)
    (log : List io_event)
    (hfresh : t.trace_idx = 0) (hcap : t.trace_max_idx = 5)
    (hid0 : 0 ≤ t.id) (hid : t.id < 256)
    (hdump : dump_trace_sock
      (sync_trace_sock (trace_sock_resp (trace_sock_write t 42 1000) 42 1500) 900)
      open_ fuel = some log)
    (hw : written log ≠ []) :
    decode_file (written log)
      = some ⟨2, 2, [⟨t.id.toNat, 0, 42, 100⟩, ⟨t.id.toNat, 1, 42, 600⟩]⟩ ∧
    written log
      = [2, 0, 0, 0, 2, 0, 0, 0,
         t.id.toNat, 0, 42, 0, 100, 0, 0, 0,
         t.id.toNat, 1, 42, 0, 88, 2, 0, 0] := by
  obtain ⟨i2, hrec⟩ := scenario_state t hfresh hcap hid0 hid
  have hbytes := dump_written _ open_ fuel log hdump
  generalize sync_trace_sock (trace_sock_resp (trace_sock_write t 42 1000) 42 1500) 900
    = t3 at i2 hrec hbytes
  have hlt : t.id.toNat < 256 := by omega
  have hwf : ∀ i, i < t3.trace_idx → (t3.trace_buf i).wf := by
    intro i hi
    have hmem : t3.trace_buf i ∈ recorded t3 :=
      List.mem_map.mpr ⟨i, List.mem_range.mpr hi, rfl⟩
    rw [hrec] at hmem
    simp only [List.mem_cons, List.mem_singleton, List.mem_nil_iff, or_false] at hmem
    rcases hmem with h | h <;> rw [h] <;>
      exact ⟨hlt, by simp, by simp, by simp⟩
  obtain ⟨_, d2⟩ := decode_dump t3 (by rw [i2]; decide) hwf
  have hb : written log = head_bytes t3 ++ buf_bytes t3 := by
    rcases hbytes with h | h
    · exact absurd h hw
    · exact h
  rw [hb]
  refine ⟨by rw [d2, i2, hrec], ?_⟩
  rw [buf_bytes_eq, hrec, head_bytes_eq t3 (by rw [i2]; decide), i2]
  simp only [List.map_cons, List.map_nil, List.flatten_cons, List.flatten_nil,
    record_bytes_eq, List.cons_append, List.nil_append, List.append_nil,
    Nat.mod_eq_of_lt hlt]

/-- Instance of C8 for thread 7, with an `open` that succeeds at once. -/
theorem C8_scenario_witness :
    (∃ log, dump_trace_sock ex_scenario ex_open_ok 1 = some log ∧
      written log ≠ []) ∧
    decode_file (head_bytes ex_scenario ++ buf_bytes ex_scenario)
      = some ⟨2, 2, [⟨7, 0, 42, 100⟩, ⟨7, 1, 42, 600⟩]⟩ :=
  ⟨⟨_, rfl, by decide⟩,
    (C8_scenario ⟨7, 0, 5, fun _ => zero_record⟩ ex_open_ok 1 _ rfl rfl
      (by decide) (by decide) rfl (by decide)).1⟩

/-- C9: `open_trace_sock` with a successful allocation gives `trace_idx = 0`,
an all-zero record in every slot, and `trace_max_idx` equal to the byte budget
`4096 * 4096 = 16777216` divided by the 8-byte record size, that is 2097152
records, so that `trace_max_idx * 8` does not exceed the budget allocated; a
failed allocation stops at the assertion. -/
theorem C9_open_state (t : thread) :
    (∃ t1, open_trace_sock t true = some t1 ∧
      t1.trace_idx = 0 ∧
      (∀ i, t1.trace_buf i = ⟨0, 0, 0, 0⟩) ∧
      (∀ i, record_bytes (t1.trace_buf i) = [0, 0, 0, 0, 0, 0, 0, 0]) ∧
      t1.trace_max_idx = bufsize / sizeof_trace_buf_elem ∧
      t1.trace_max_idx = 2097152 ∧
      t1.trace_max_idx * 8 ≤ bufsize ∧
      t1.id = t.id) ∧
    bufsize = 16777216 ∧
    sizeof_trace_buf_elem = 8 ∧
    open_trace_sock t false = none := by
  have hopen : open_trace_sock t true
      = some ⟨t.id, 0, 2097152, fun _ => zero_record⟩ := rfl
  have hsize : (2097152 : Nat) * 8 ≤ bufsize := by decide
  have hzero : record_bytes zero_record = [0, 0, 0, 0, 0, 0, 0, 0] := by decide
  exact ⟨⟨_, hopen, rfl, fun _ => rfl, fun _ => hzero, rfl, rfl, hsize, rfl⟩, rfl, rfl, rfl⟩

/-- C10: the eleven event kinds, in the order request sent, response received,
connection start, connected, loop start, poll wait, poll wake, delay request
front end, delay request tail end, expect request front end, expect request
tail end, have the ordinals 0, 1, ..., 10; each ordinal is unchanged by the
store into the 8-bit event field; and on a buffer with room the ordinal a
recording function stores does not depend on its arguments, differs between
any two of the eleven functions, and every ordinal 0..10 is stored by one of
them. -/
theorem C10_event_ordinals :
    (trace_event.TRACE_EV_REQ.val = 0 ∧
     trace_event.TRACE_EV_RESP.val = 1 ∧
     trace_event.TRACE_EV_CONN_START.val = 2 ∧
     trace_event.TRACE_EV_CONNECTED.val = 3 ∧
     trace_event.TRACE_EV_LOOP_START.val = 4 ∧
     trace_event.TRACE_EV_EPOLL_WAIT.val = 5 ∧
     trace_event.TRACE_EV_EPOLL_WAKE.val = 6 ∧
     trace_event.TRACE_EV_DELAY_REQ_FE.val = 7 ∧
     trace_event.TRACE_EV_DELAY_REQ_TE.val = 8 ∧
     trace_event.TRACE_EV_EXPECT_REQ_FE.val = 9 ∧
     trace_event.TRACE_EV_EXPECT_REQ_TE.val = 10) ∧
    (∀ e : trace_event, 0 ≤ e.val ∧ e.val < 256 ∧ (to_u8 e.val : Int) = e.val) ∧
    (∀ (t : thread) (f : recorder) (arg : Int) (us : Nat),
      t.trace_idx < t.trace_max_idx →
      (((f.run t arg us).trace_buf t.trace_idx).event : Int) = f.kind.val ∧
      ((f.run t arg us).trace_buf t.trace_idx).event ≤ 10) ∧
    (∀ (t : thread) (f g : recorder) (arg1 arg2 : Int) (us1 us2 : Nat),
      t.trace_idx < t.trace_max_idx →
      ((f.run t arg1 us1).trace_buf t.trace_idx).event
        = ((g.run t arg2 us2).trace_buf t.trace_idx).event →
      f = g) ∧
    (∀ (t : thread) (arg : Int) (us : Nat) (k : Nat),
      t.trace_idx < t.trace_max_idx → k ≤ 10 →
      ∃ f : recorder, ((f.run t arg us).trace_buf t.trace_idx).event = k) := by
  have hev : ∀ (t : thread) (f : recorder) (arg : Int) (us : Nat),
      t.trace_idx < t.trace_max_idx →
      ((f.run t arg us).trace_buf t.trace_idx).event = f.ordinal := by
    intro t f arg us h
    rw [run_room f t arg us h]
    simp only [Function.update_same, call.record]
  refine ⟨by decide, ?_, ?_, ?_, ?_⟩
  · intro e; cases e <;> decide
  · intro t f arg us h
    rw [hev t f arg us h]
    cases f <;> decide
  · intro t f g arg1 arg2 us1 us2 h heq
    rw [hev t f arg1 us1 h, hev t g arg2 us2 h] at heq
    revert heq
    cases f <;> cases g <;> decide
  · intro t arg us k h hk
    have hex : ∃ f : recorder, f.ordinal = k := by
      interval_cases k
      · exact ⟨.sock_write, rfl⟩
      · exact ⟨.sock_resp, rfl⟩
      · exact ⟨.sock_conn_start, rfl⟩
      · exact ⟨.sock_connected, rfl⟩
      · exact ⟨.loop_start, rfl⟩
      · exact ⟨.epoll_wait, rfl⟩
      · exact ⟨.epoll_wake, rfl⟩
      · exact ⟨.sock_delay_req_fe, rfl⟩
      · exact ⟨.sock_delay_req_te, rfl⟩
      · exact ⟨.sock_expect_req_fe, rfl⟩
      · exact ⟨.sock_expect_req_te, rfl⟩
    obtain ⟨f, hf⟩ := hex
    exact ⟨f, by rw [hev t f arg us h, hf]⟩

/-- Instance of C10: on the empty buffer of capacity 2, `trace_epoll_wait`
stores the ordinal 5 of the poll-wait event. -/
theorem C10_event_ordinals_witness :
    ex_empty.trace_idx < ex_empty.trace_max_idx ∧
    (((recorder.epoll_wait.run ex_empty (-1) 77).trace_buf ex_empty.trace_idx).event : Int)
      = 5 :=
  ⟨by decide, (C10_event_ordinals.2.2.1 ex_empty recorder.epoll_wait (-1) 77 (by decide)).1⟩

/-- C11: with `open()` an oracle answering a descriptor or an error number,
every finished run of `dump_trace_sock` made `m + 1` open attempts for some
`m`: the first with `O_RDWR|O_CREAT|O_EXCL`, each retry with plain `O_RDWR`
(which has none of `O_CREAT`, `O_EXCL`, `O_TRUNC`, `O_APPEND`); an attempt was
followed by a retry exactly when it failed with `EEXIST` (all attempts before
the last did, the last did not); after a successful last attempt come the two
writes and the close; and when an attempt fails with another error the
function returns after reporting it, with no write at all. -/
theorem C11_open_discipline (t : thread) (open_ : open_oracle) :
    (attempt_flags 0 = O_RDWR ||| O_CREAT ||| O_EXCL ∧
      (∀ k, attempt_flags (k + 1) = O_RDWR) ∧
      O_RDWR &&& (O_CREAT ||| O_EXCL ||| O_TRUNC ||| O_APPEND) = 0) ∧
    (∀ fuel log, dump_trace_sock t open_ fuel = some log →
      ∃ m, m < fuel ∧
        (∀ k, k < m →
          open_ k (trace_path t.id) (attempt_flags k) 438 = .error EEXIST) ∧
        open_ m (trace_path t.id) (attempt_flags m) 438 ≠ .error EEXIST ∧
        ((∃ fd, open_ m (trace_path t.id) (attempt_flags m) 438 = .ok fd ∧
            log = open_log (trace_path t.id) (O_RDWR ||| O_CREAT ||| O_EXCL) m ++
              [io_event.write_call fd (head_bytes t),
               io_event.write_call fd (buf_bytes t),
               io_event.close_call fd]) ∨
         (∃ e, e ≠ EEXIST ∧
            open_ m (trace_path t.id) (attempt_flags m) 438 = .error e ∧
            log = open_log (trace_path t.id) (O_RDWR ||| O_CREAT ||| O_EXCL) m ++
              [io_event.report (trace_path t.id) e] ∧
            written log = []))) ∧
    (∀ m e fuel, m < fuel →
      (∀ k, k < m →
        open_ k (trace_path t.id) (attempt_flags k) 438 = .error EEXIST) →
      open_ m (trace_path t.id) (attempt_flags m) 438 = .error e → e ≠ EEXIST →
      dump_trace_sock t open_ fuel
        = some (open_log (trace_path t.id) (O_RDWR ||| O_CREAT ||| O_EXCL) m ++
            [io_event.report (trace_path t.id) e]) ∧
      written (open_log (trace_path t.id) (O_RDWR ||| O_CREAT ||| O_EXCL) m ++
            [io_event.report (trace_path t.id) e]) = []) := by
  have hnowrite : ∀ m e,
      written (open_log (trace_path t.id) (O_RDWR ||| O_CREAT ||| O_EXCL) m ++
        [io_event.report (trace_path t.id) e]) = [] := by
    intro m e
    rw [written_append, written_open_log]
    rfl
  refine ⟨⟨rfl, fun _ => rfl, by decide⟩, ?_, ?_⟩
  · intro fuel log h
    unfold dump_trace_sock at h
    split at h
    · simp at h
    · rename_i log1 h1
      simp only [Option.some.injEq] at h
      obtain ⟨m, hm, hk, hlast⟩ := dump_again_backward open_ _ _ _ _ _ _ h1
      simp only [Nat.zero_add] at hk hlast
      rcases hlast with ⟨fd, _, a2, _⟩ | ⟨e, a0, a1, _, a3⟩
      · simp at a2
      · refine ⟨m, hm, hk, ?_, Or.inr ⟨e, a0, a1, by rw [← h, a3], ?_⟩⟩
        · show open_ m (trace_path t.id) (if m = 0 then _ else O_RDWR) 438 ≠ _
          rw [a1]
          intro hc
          injection hc with hc
          exact a0 hc
        · rw [← h, a3]
          exact hnowrite m e
    · rename_i log1 fd h1
      simp only [Option.some.injEq] at h
      obtain ⟨m, hm, hk, hlast⟩ := dump_again_backward open_ _ _ _ _ _ _ h1
      simp only [Nat.zero_add] at hk hlast
      rcases hlast with ⟨fd1, a1, a2, a3⟩ | ⟨e, _, _, a2, _⟩
      · simp only [Option.some.injEq] at a2
        subst a2
        refine ⟨m, hm, hk, ?_, Or.inl ⟨fd, a1, by rw [← h, a3]⟩⟩
        show open_ m (trace_path t.id) (if m = 0 then _ else O_RDWR) 438 ≠ _
        rw [a1]
        intro hc
        cases hc
      · simp at a2
  · intro m e fuel hm hk hlast he
    obtain ⟨_, f2⟩ := dump_again_forward open_ (trace_path t.id) m fuel 0
      (O_RDWR ||| O_CREAT ||| O_EXCL) hm (by simpa only [Nat.zero_add] using hk)
    have h1 := f2 e he (by simpa only [Nat.zero_add] using hlast)
    exact ⟨dump_of_again_err t open_ fuel _ h1, hnowrite m e⟩

/-- Instance of C11: dumping `ex_two` when `open` is refused with `EACCES`
makes one attempt, reports, and writes nothing. -/
theorem C11_open_discipline_witness :
    ex_open_denied 0 (trace_path ex_two.id) (attempt_flags 0) 438 = .error 13 ∧
    dump_trace_sock ex_two ex_open_denied 1
      = some (open_log (trace_path ex_two.id) (O_RDWR ||| O_CREAT ||| O_EXCL) 0 ++
          [io_event.report (trace_path ex_two.id) 13]) :=
  ⟨rfl, ((C11_open_discipline ex_two ex_open_denied).2.2 0 13 1 (by decide)
    (fun k hk => absurd hk (Nat.not_lt_zero k)) rfl (by decide)).1⟩

/-- C12: for thread identifiers in the range of a C `int`, the path
`dump_trace_sock` opens is `wrk-thread`, then the decimal rendering of the
identifier, then `.trace`; it has at most 27 characters, so the 128-byte
buffer never truncates it; and two different identifiers give two different
paths. -/
theorem C12_trace_path (a b : Int)
    (ha0 : -2147483648 ≤ a) (ha1 : a ≤ 2147483647)
    (hb0 : -2147483648 ≤ b) (hb1 : b ≤ 2147483647) :
    trace_path a = "wrk-thread".toList ++ fmt_d a ++ ".trace".toList ∧
    fmt_d a = (toString a).toList ∧
    parse_d (fmt_d a) = a ∧
    (trace_path a).length ≤ 27 ∧
    (trace_path a).length < 128 ∧
    (a ≠ b → trace_path a ≠ trace_path b) ∧
    (∀ (t : thread) (open_ : open_oracle) (fuel : Nat) (log : List io_event)
        (p : List Char) (fl md : Nat),
      t.id = a → dump_trace_sock t open_ fuel = some log →
      io_event.open_call p fl md ∈ log → p = trace_path a) := by
  obtain ⟨fa, la⟩ := trace_path_full a ha0 ha1
  obtain ⟨fb, _⟩ := trace_path_full b hb0 hb1
  refine ⟨fa, fmt_d_toString a, parse_fmt_d a, la, by omega, ?_, ?_⟩
  · intro hne heq
    rw [fa, fb] at heq
    have h1 := List.append_cancel_right heq
    have h2 := List.append_cancel_left h1
    exact hne (fmt_d_injective a b h2)
  · intro t open_ fuel log p fl md hid hdump hmem
    rw [← hid]
    exact dump_opens_path t open_ fuel log hdump p fl md hmem

/-- Instance of C12: the smallest `int` gives the longest path, of 27
characters, and it differs from the path of thread 256. -/
theorem C12_trace_path_witness :
    ((-2147483648 : Int) ≤ -2147483648 ∧ (-2147483648 : Int) ≤ 2147483647) ∧
    trace_path (-2147483648)
      = "wrk-thread".toList ++ fmt_d (-2147483648) ++ ".trace".toList ∧
    (trace_path (-2147483648)).length ≤ 27 ∧
    trace_path (-2147483648) ≠ trace_path 256 :=
  ⟨⟨by decide, by decide⟩,
    (C12_trace_path (-2147483648) 256 (by decide) (by decide) (by decide)
      (by decide)).1,
    (C12_trace_path (-2147483648) 256 (by decide) (by decide) (by decide)
      (by decide)).2.2.2.1,
    (C12_trace_path (-2147483648) 256 (by decide) (by decide) (by decide)
      (by decide)).2.2.2.2.2.1 (by decide)⟩

/-- C13: `sync_trace_sock` is not idempotent: on a buffer holding at least one
record, with a `start_us` that is not 0 modulo `2^32`, normalising twice
gives a state different from normalising once, and the timestamp of every
recorded record differs between the two. -/
theorem C13_sync_not_idempotent (t : thread) (start_us : Nat)
    (hrec : 1 ≤ t.trace_idx) (hs : start_us % 4294967296 ≠ 0) :
    sync_trace_sock (sync_trace_sock t start_us) start_us
      ≠ sync_trace_sock t start_us ∧
    ∀ i, i < t.trace_idx →
      ((sync_trace_sock (sync_trace_sock t start_us) start_us).trace_buf i).us
        ≠ ((sync_trace_sock t start_us).trace_buf i).us := by
  obtain ⟨a1, _, _, a4⟩ := sync_spec t start_us
  obtain ⟨_, _, _, b4⟩ := sync_spec (sync_trace_sock t start_us) start_us
  have hne : ∀ i, i < t.trace_idx →
      ((sync_trace_sock (sync_trace_sock t start_us) start_us).trace_buf i).us
        ≠ ((sync_trace_sock t start_us).trace_buf i).us := by
    intro i hi
    rw [b4 i, a1, if_pos hi, a4 i, if_pos hi]
    exact u32_sub_ne _ _ hs
  refine ⟨?_, hne⟩
  intro heq
  exact hne 0 (by omega) (by rw [heq])

/-- Instance of C13: the two timestamps 1000 and 1001 of `ex_two`, normalised
by 900 once and twice. -/
theorem C13_sync_not_idempotent_witness :
    1 ≤ ex_two.trace_idx ∧ 900 % 4294967296 ≠ 0 ∧
    ((sync_trace_sock (sync_trace_sock ex_two 900) 900).trace_buf 0).us
      ≠ ((sync_trace_sock ex_two 900).trace_buf 0).us :=
  ⟨by decide, by decide,
    (C13_sync_not_idempotent ex_two 900 (by decide) (by decide)).2 0 (by decide)⟩

/-- C14: for an event time `us` and a run start `S` of any size (so for all
64-bit ones) with `S <= us` and `us - S < 2^32`, a recording call with
timestamp `us` stores `us mod 2^32`, and a later `sync_trace_sock` with
`start_us = S mod 2^32`, whatever was recorded in between, leaves exactly
`us - S` in that record. -/
theorem C14_wraparound (f : recorder) (t : thread) (arg : Int) (us S : Nat)
    (cs : List call)
    (hroom : t.trace_idx < t.trace_max_idx)
    (hle : S ≤ us) (hd : us - S < 4294967296) :
    ((f.run t arg us).trace_buf t.trace_idx).us = us % 4294967296 ∧
    ((sync_trace_sock (run_calls (f.run t arg us) cs)
        (S % 4294967296)).trace_buf t.trace_idx).us = us - S := by
  have hrun := run_room f t arg us hroom
  have hst : ((f.run t arg us).trace_buf t.trace_idx).us = us % 4294967296 := by
    rw [hrun]
    simp only [Function.update_same, call.record, to_u32]
  have hidx : (f.run t arg us).trace_idx = t.trace_idx + 1 := by rw [hrun]
  obtain ⟨c1, c2⟩ := run_calls_frame cs (f.run t arg us)
  obtain ⟨_, _, _, a4⟩ := sync_spec (run_calls (f.run t arg us) cs) (S % 4294967296)
  refine ⟨hst, ?_⟩
  rw [a4 t.trace_idx, if_pos (by omega), c2 t.trace_idx (by omega)]
  show u32_sub _ _ = _
  rw [hst]
  unfold u32_sub
  omega

/-- Instance of C14: an event at `2^32 + 5` in a run started at `2^32 - 6`;
the stored timestamp 5 is smaller than the 32-bit start 4294967290. -/
theorem C14_wraparound_witness :
    ex_empty.trace_idx < ex_empty.trace_max_idx ∧
    (4294967290 : Nat) ≤ 4294967301 ∧
    ((recorder.sock_write.run ex_empty 1 4294967301).trace_buf 0).us = 5 ∧
    ((sync_trace_sock (run_calls (recorder.sock_write.run ex_empty 1 4294967301) [])
        (4294967290 % 4294967296)).trace_buf 0).us = 11 :=
  ⟨by decide, by decide,
    (C14_wraparound recorder.sock_write ex_empty 1 4294967301 4294967290 []
      (by decide) (by decide) (by decide)).1,
    (C14_wraparound recorder.sock_write ex_empty 1 4294967301 4294967290 []
      (by decide) (by decide) (by decide)).2⟩

/-- C15: each of the eleven recording functions, on every state, leaves
`trace_max_idx`, the thread identifier and every record at an index other
than the old `trace_idx` unchanged; so every record written before (index
below the old `trace_idx`) is the same before and after the call. -/
theorem C15_append_only_frame (f : recorder) (t : thread) (arg : Int) (us : Nat) :
    (f.run t arg us).trace_max_idx = t.trace_max_idx ∧
    (f.run t arg us).id = t.id ∧
    (∀ j, j ≠ t.trace_idx → (f.run t arg us).trace_buf j = t.trace_buf j) ∧
    (∀ j, j < t.trace_idx → (f.run t arg us).trace_buf j = t.trace_buf j) := by
  obtain ⟨f1, f2, _, f4⟩ := run_frame f t arg us
  exact ⟨f1, f2, f4, fun j hj => f4 j (by omega)⟩

/-- C16: when an `open()` without the exclusive-create flag never fails with
`EEXIST`, `dump_trace_sock` finishes for every thread state and every answer
of `open()` as soon as two attempts are allowed, and it made at most two open
attempts; with an `open()` that answers `EEXIST` to every attempt it does not
finish within any number of attempts. -/
theorem C16_open_loop_bound (t : thread) :
    (∀ open_ : open_oracle, posix_eexist open_ → ∀ fuel, 2 ≤ fuel →
      ∃ log, dump_trace_sock t open_ fuel = some log ∧ open_attempts log ≤ 2) ∧
    (∀ fuel, dump_trace_sock t (fun _ _ _ _ => .error EEXIST) fuel = none) := by
  constructor
  · intro open_ hposix fuel hfuel
    have hfw := dump_again_forward open_ (trace_path t.id)
    have hcount_ok : ∀ m fd, open_attempts
        (open_log (trace_path t.id) (O_RDWR ||| O_CREAT ||| O_EXCL) m ++
          [io_event.write_call fd (head_bytes t),
           io_event.write_call fd (buf_bytes t),
           io_event.close_call fd]) = m + 1 := by
      intro m fd
      rw [open_attempts_append, open_attempts_open_log]
      rfl
    have hcount_err : ∀ m e, open_attempts
        (open_log (trace_path t.id) (O_RDWR ||| O_CREAT ||| O_EXCL) m ++
          [io_event.report (trace_path t.id) e]) = m + 1 := by
      intro m e
      rw [open_attempts_append, open_attempts_open_log]
      rfl
    cases h0 : open_ 0 (trace_path t.id) (O_RDWR ||| O_CREAT ||| O_EXCL) 438 with
    | ok fd =>
      obtain ⟨f1, _⟩ := hfw 0 fuel 0 (O_RDWR ||| O_CREAT ||| O_EXCL) (by omega)
        (fun k hk => absurd hk (Nat.not_lt_zero k))
      exact ⟨_, dump_of_again_ok t open_ fuel fd _ (f1 fd h0),
        by rw [hcount_ok]; omega⟩
    | error e =>
      by_cases he : e = EEXIST
      · subst he
        have hk : ∀ k, k < 1 →
            open_ (0 + k) (trace_path t.id)
              (if k = 0 then O_RDWR ||| O_CREAT ||| O_EXCL else O_RDWR) 438
              = .error EEXIST := by
          intro k hk
          have : k = 0 := by omega
          subst this
          exact h0
        obtain ⟨f1, f2⟩ := hfw 1 fuel 0 (O_RDWR ||| O_CREAT ||| O_EXCL) (by omega) hk
        cases h1 : open_ 1 (trace_path t.id) O_RDWR 438 with
        | ok fd =>
          exact ⟨_, dump_of_again_ok t open_ fuel fd _ (f1 fd h1),
            by rw [hcount_ok]⟩
        | error e1 =>
          have he1 : e1 ≠ EEXIST := by
            intro hc
            subst hc
            exact hposix 1 (trace_path t.id) O_RDWR 438 (by decide) h1
          exact ⟨_, dump_of_again_err t open_ fuel _ (f2 e1 he1 h1),
            by rw [hcount_err]⟩
      · obtain ⟨_, f2⟩ := hfw 0 fuel 0 (O_RDWR ||| O_CREAT ||| O_EXCL) (by omega)
          (fun k hk => absurd hk (Nat.not_lt_zero k))
        exact ⟨_, dump_of_again_err t open_ fuel _ (f2 e he h0),
          by rw [hcount_err]; omega⟩
  · intro fuel
    simp only [dump_trace_sock, dump_again_eexist]

/-- Instance of C16: dumping `ex_two` to a path that exists takes two open
attempts and then writes. -/
theorem C16_open_loop_bound_witness :
    posix_eexist ex_open_exists ∧
    (∃ log, dump_trace_sock ex_two ex_open_exists 2 = some log ∧
      open_attempts log ≤ 2) ∧
    dump_trace_sock ex_two ex_open_eexist 1000 = none :=
  ⟨ex_open_exists_posix,
    (C16_open_loop_bound ex_two).1 ex_open_exists ex_open_exists_posix 2 (by decide),
    (C16_open_loop_bound ex_two).2 1000⟩

/-- C17: `sync_trace_sock` leaves `trace_idx`, `trace_max_idx` and the thread
identifier unchanged, the `tid`, `event` and `cid` of every record unchanged,
and every record at an index `>= trace_idx` unchanged, timestamp included. -/
theorem C17_sync_frame (t : thread) (start_us : Nat) :
    (sync_trace_sock t start_us).trace_idx = t.trace_idx ∧
    (sync_trace_sock t start_us).trace_max_idx = t.trace_max_idx ∧
    (sync_trace_sock t start_us).id = t.id ∧
    (∀ i, ((sync_trace_sock t start_us).trace_buf i).tid = (t.trace_buf i).tid ∧
          ((sync_trace_sock t start_us).trace_buf i).event = (t.trace_buf i).event ∧
          ((sync_trace_sock t start_us).trace_buf i).cid = (t.trace_buf i).cid) ∧
    (∀ i, t.trace_idx ≤ i →
      (sync_trace_sock t start_us).trace_buf i = t.trace_buf i) := by
  obtain ⟨a1, a2, a3, a4⟩ := sync_spec t start_us
  refine ⟨a1, a2, a3, ?_, ?_⟩
  · intro i
    rw [a4 i]
    split <;> exact ⟨rfl, rfl, rfl⟩
  · intro i hi
    rw [a4 i, if_neg (by omega)]

/-- C18: with room left, a recording function called with arbitrary arguments
stores them reduced to the width of the field: `tid` is the thread identifier
modulo `2^8`, `cid` is the correlation argument modulo `2^16` (the constant 0
for `trace_loop_start`) and `us` is the timestamp modulo `2^32`.  So
`trace_epoll_wait` with timeout -1 stores `cid` 65535, and a thread with
identifier 256 stores `tid` 0 while its dump path is `wrk-thread256.trace`. -/
theorem C18_narrowing (f : recorder) (t : thread) (arg : Int) (us : Nat)
    (hroom : t.trace_idx < t.trace_max_idx) :
    ((((f.run t arg us).trace_buf t.trace_idx).tid : Int) = t.id % 256 ∧
     (((f.run t arg us).trace_buf t.trace_idx).cid : Int)
       = (if f = recorder.loop_start then 0 else arg % 65536) ∧
     ((f.run t arg us).trace_buf t.trace_idx).us = us % 4294967296) ∧
    ((trace_epoll_wait t (-1) us).trace_buf t.trace_idx).cid = 65535 ∧
    (t.id = 256 →
      ((f.run t arg us).trace_buf t.trace_idx).tid = 0 ∧
      trace_path t.id = "wrk-thread256.trace".toList) := by
  have hrun := run_room f t arg us hroom
  have hwait := run_room recorder.epoll_wait t (-1) us hroom
  refine ⟨⟨?_, ?_, ?_⟩, ?_, ?_⟩
  · rw [hrun]
    simp only [Function.update_same, call.record]
    exact to_u8_int _
  · rw [hrun]
    simp only [Function.update_same, call.record, recorder.corr]
    rw [to_u16_int]
    split <;> rfl
  · rw [hrun]
    simp only [Function.update_same, call.record, to_u32]
  · show ((recorder.epoll_wait.run t (-1) us).trace_buf t.trace_idx).cid = 65535
    rw [hwait]
    simp only [Function.update_same, call.record]
    decide
  · intro hid
    rw [hrun, hid]
    simp only [Function.update_same, call.record]
    exact ⟨by decide, by decide⟩

/-- Instance of C18: thread 256 with an empty buffer of capacity 1 calling
`trace_sock_resp` with correlation argument 65537 at time `2^32 + 7`. -/
theorem C18_narrowing_witness :
    (0 : Nat) < 1 ∧
    ((recorder.sock_resp.run ⟨256, 0, 1, fun _ => zero_record⟩ 65537
        4294967303).trace_buf 0).us = 7 ∧
    ((recorder.sock_resp.run ⟨256, 0, 1, fun _ => zero_record⟩ 65537
        4294967303).trace_buf 0).tid = 0 :=
  ⟨by decide,
    (C18_narrowing recorder.sock_resp ⟨256, 0, 1, fun _ => zero_record⟩ 65537
      4294967303 (by decide)).1.2.2,
    ((C18_narrowing recorder.sock_resp ⟨256, 0, 1, fun _ => zero_record⟩ 65537
      4294967303 (by decide)).2.2 rfl).1⟩

/-- C19: for all `s1` and `s2` (so for all 32-bit ones), `sync_trace_sock` by
`s1` and then by `s2` gives the state of the single `sync_trace_sock` by `(s1 + s2) mod 2^32`;
`sync_trace_sock` by 0 is the identity on a buffer whose recorded timestamps
are 32-bit values; and the difference modulo `2^32` of the timestamps of any
two recorded records is the same before and after a normalisation. -/
theorem C19_sync_composes (t : thread) (s1 s2 : Nat) :
    sync_trace_sock (sync_trace_sock t s1) s2
      = sync_trace_sock t ((s1 + s2) % 4294967296) ∧
    ((∀ i, i < t.trace_idx → (t.trace_buf i).us < 4294967296) →
      sync_trace_sock t 0 = t) ∧
    (∀ i j, i < t.trace_idx → j < t.trace_idx →
      ((((sync_trace_sock t s1).trace_buf i).us : Int)
          - (((sync_trace_sock t s1).trace_buf j).us : Int)) % 4294967296
        = (((t.trace_buf i).us : Int) - ((t.trace_buf j).us : Int)) % 4294967296) := by
  obtain ⟨a1, a2, a3, a4⟩ := sync_spec t s1
  obtain ⟨b1, b2, b3, b4⟩ := sync_spec (sync_trace_sock t s1) s2
  obtain ⟨c1, c2, c3, c4⟩ := sync_spec t ((s1 + s2) % 4294967296)
  obtain ⟨z1, z2, z3, z4⟩ := sync_spec t 0
  refine ⟨?_, ?_, ?_⟩
  · apply thread_ext
    · rw [b3, a3, c3]
    · rw [b1, a1, c1]
    · rw [b2, a2, c2]
    · intro i
      rw [b4 i, a1, c4 i, a4 i]
      by_cases hi : i < t.trace_idx
      · simp only [if_pos hi]
        rw [u32_sub_sub]
      · simp only [if_neg hi]
  · intro hwf
    apply thread_ext _ _ z3 z1 z2
    intro i
    rw [z4 i]
    by_cases hi : i < t.trace_idx
    · rw [if_pos hi]
      show trace_record.mk _ _ _ (u32_sub _ 0) = _
      rw [u32_sub_zero _ (hwf i hi)]
    · rw [if_neg hi]
  · intro i j hi hj
    rw [a4 i, a4 j, if_pos hi, if_pos hj]
    show (((u32_sub _ _ : Nat) : Int) - ((u32_sub _ _ : Nat) : Int)) % _ = _
    rw [u32_sub_int, u32_sub_int]
    omega

/-- Instance of C19: `ex_two` normalised by 900 and then by `2^32 - 400`, that
is by 500 in all. -/
theorem C19_sync_composes_witness :
    (∀ i, i < ex_two.trace_idx → (ex_two.trace_buf i).us < 4294967296) ∧
    sync_trace_sock (sync_trace_sock ex_two 900) 4294966896
      = sync_trace_sock ex_two ((900 + 4294966896) % 4294967296) ∧
    sync_trace_sock ex_two 0 = ex_two :=
  ⟨by decide,
    (C19_sync_composes ex_two 900 4294966896).1,
    (C19_sync_composes ex_two 900 4294966896).2.1 (by decide)⟩

end Trace
